import Mathlib

/-!
# Verification of the repart-kv result-aggregation scripts

This file is a shallow embedding, in Lean 4, of the two Python scripts
`results/aggregate_results.py` (the "summary" variant) and
`results/aggregate_throughput_time.py` (the "time-series" variant), together
with proofs about the behaviour claimed in the repository specification.

Modelling conventions:
* Python strings are modelled as `List Char` (`Str`).
* Python `float` values are modelled as exact rationals (`ℚ`); the scripts only
  add, subtract, divide and compare values parsed from CSV integers, so the
  algebra of the pipeline is captured exactly.  IEEE-754 representation error
  is not modelled; where it could matter (ties of Python's `round`) no theorem
  below depends on a tie.
* Python `dict`s (all used in insertion order) are modelled as association
  lists that preserve insertion order, and `os.listdir` results as an input
  list of `(filename, file contents)` pairs.
* Python functions that return `None` on failure, or whose body can only fail
  by raising an exception that the caller catches and turns into a skip, are
  modelled with `Option`.
-/

/-- Python strings are modelled as lists of characters. -/
abbrev Str := List Char

/-- Shorthand turning a Lean string literal into the `List Char` model. -/
def strL (s : String) : Str := s.data

/-- The double-underscore field delimiter used by both scripts. -/
def sepDU : Str := ['_', '_']

/-! ## Decimal numerals

The scripts parse the numeric filename fields with Python `int(...)` and build
keys back out of them with f-strings (`str(...)`).  We model decimal numerals
over `List Char` directly. -/

/-- The character for a decimal digit value (`0 ↦ '0'`, ..., `9 ↦ '9'`). -/
def digitChar (d : ℕ) : Char := Char.ofNat (48 + d)

/-- The numeric value of a decimal digit character (`'0' ↦ 0`, ...). -/
def charVal (c : Char) : ℕ := c.toNat - 48

/-- Numeric value of a most-significant-digit-first digit string. -/
def digitsToNat (l : Str) : ℕ :=
  Nat.ofDigits 10 ((l.map charVal).reverse)

/-- Least-significant-first digit values of `n`, with explicit fuel so that the
recursion is structural (the fuel `n` itself is always enough). -/
def natDigitsRev (fuel n : ℕ) : List ℕ :=
  match fuel with
  | 0 => []
  | fuel + 1 => if n = 0 then [] else (n % 10) :: natDigitsRev fuel (n / 10)

/-- The decimal rendering of `n`, as Python `str(n)` produces for `n : ℕ`. -/
def natToDigits (n : ℕ) : Str :=
  if n = 0 then ['0'] else ((natDigitsRev n n).map digitChar).reverse

/-- Python `int(s)` for an (unsigned) decimal digit string; any other input
makes `int` raise `ValueError`, which `parse_filename` does not catch, so the
model returns `none` there.  (Python's `int` also accepts signs, surrounding
whitespace and inner underscores; none of those occur in the filenames this
pipeline encodes, and they are not modelled.) -/
def pyInt (l : Str) : Option ℕ :=
  if l.isEmpty then none
  else if l.all Char.isDigit then some (digitsToNat l) else none

/-- Python `float(s)` restricted to optionally-negated decimal integer
literals, which is the fragment that de-dotted CSV fields of this pipeline
produce; other accepted Python forms (exponents, decimal points, `inf`, ...)
do not arise and are not modelled.  A failing parse raises `ValueError` in
Python; both call sites catch it and skip the file, so the model returns
`none`. -/
def pyFloat (l : Str) : Option ℚ :=
  match l with
  | '-' :: rest =>
    if rest.isEmpty then none
    else if rest.all Char.isDigit then some (-(digitsToNat rest : ℚ)) else none
  | _ =>
    if l.isEmpty then none
    else if l.all Char.isDigit then some ((digitsToNat l : ℚ)) else none

/-- Python `s.replace('.', '')`: the scripts strip dots (thousands
separators) before parsing numbers. -/
def removeDots (l : Str) : Str := l.filter (fun c => c ≠ '.')

/-- Python `s.strip()`. -/
def pyStrip (l : Str) : Str :=
  ((l.dropWhile Char.isWhitespace).reverse.dropWhile Char.isWhitespace).reverse

/-- Python `s.lower()`. -/
def pyLower (l : Str) : Str := l.map Char.toLower

/-! ## Filename decoding -/

/-- Python `s.rsplit('.', 1)[0]`: everything before the last dot, or the whole
string when there is no dot. -/
def rstripExt (l : Str) : Str :=
  if '.' ∈ l then ((l.reverse.dropWhile (fun c => c ≠ '.')).drop 1).reverse else l

/-- The `re.search(r'\((\d+)\)$', name)` step of `parse_filename` together
with `name[:match.start()]`: a successful match means the name ends in
`(`, one or more digits, `)`; the result is the text before the `(` and the
numeric value of the digits.  (The regex match, if any, is unique, since the
digits of the suffix cannot contain a second `(`.) -/
def stripRepRev : Str → Option (Str × ℕ)
  | [] => none
  | c :: rest =>
    if c = ')' then
      let ds := rest.takeWhile Char.isDigit
      match rest.dropWhile Char.isDigit with
      | [] => none
      | c' :: before =>
        if c' = '(' then
          if ds.isEmpty then none else some (before.reverse, digitsToNat ds.reverse)
        else none
    else none

/-- See `stripRepRev`: the scan is done on the reversed name. -/
def stripRep (l : Str) : Option (Str × ℕ) :=
  stripRepRev l.reverse

/-- Python `name_no_rep.split('__')`: splits on non-overlapping occurrences of
the two-character separator, scanning left to right. -/
def splitSep : Str → List Str
  | [] => [[]]
  | '_' :: '_' :: rest => [] :: splitSep rest
  | c :: rest =>
    match splitSep rest with
    | [] => [[c]]
    | h :: t => (c :: h) :: t

/-- The record produced by `parse_filename`.  Both scripts build the same
dictionary except for the derived keys: the summary script stores `key`
(the filename minus the repetition suffix) and the time-series script stores
`config_key` (the identical string) plus `chart_key`; the model carries both
derived keys in a single record. -/
structure RunId where
  workload : Str
  workers : ℕ
  storage_type : Str
  partitions : ℕ
  storage_engine : Str
  paths : ℕ
  interval : ℕ
  rep : ℕ
  key : Str
  chart_key : Str
  deriving DecidableEq, Repr

/-- `parse_filename` from both scripts: strip the extension, require a
trailing `(digits)` repetition suffix, split the remainder on `__` into
exactly seven fields, and parse fields 1, 3, 5, 6 as integers.
`chart_key` is built from the raw split parts (`parts[0]`, `parts[4]`,
`parts[1]`), exactly as the time-series script's f-string does. -/
def parse_filename (filename : Str) : Option RunId :=
  let name := rstripExt filename
  match stripRep name with
  | none => none
  | some (name_no_rep, rep) =>
    match splitSep name_no_rep with
    | [p0, p1, p2, p3, p4, p5, p6] =>
      match pyInt p1, pyInt p3, pyInt p5, pyInt p6 with
      | some workers, some partitions, some paths, some interval =>
        some { workload := p0, workers := workers, storage_type := p2,
               partitions := partitions, storage_engine := p4, paths := paths,
               interval := interval, rep := rep, key := name_no_rep,
               chart_key := p0 ++ sepDU ++ p4 ++ sepDU ++ p1 }
      | _, _, _, _ => none
    | _ => none

/-- The filename layout the pipeline consumes:
`<workload>__<workers>__<storage_type>__<partitions>__<storage_engine>__<paths>__<interval>(<rep>).csv`.
This is the encoder against which the spec's decode-of-encode claim is
stated. -/
def encodeFilename (workload : Str) (workers : ℕ) (storage_type : Str)
    (partitions : ℕ) (storage_engine : Str) (paths : ℕ) (interval : ℕ)
    (rep : ℕ) : Str :=
  workload ++ sepDU ++ natToDigits workers ++ sepDU ++ storage_type ++ sepDU ++
    natToDigits partitions ++ sepDU ++ storage_engine ++ sepDU ++
    natToDigits paths ++ sepDU ++ natToDigits interval ++
    '(' :: (natToDigits rep ++ ')' :: strL ".csv")

example : parse_filename (strL "ycsb_a__1__engine__1__tkrzw_tree__1__0(1).csv") =
    some { workload := strL "ycsb_a", workers := 1, storage_type := strL "engine",
           partitions := 1, storage_engine := strL "tkrzw_tree", paths := 1,
           interval := 0, rep := 1,
           key := strL "ycsb_a__1__engine__1__tkrzw_tree__1__0",
           chart_key := strL "ycsb_a__tkrzw_tree__1" } := by decide

/-! ## Summary metric extraction (`calculate_metrics`) -/

/-- The two scalar metrics of the summary script. -/
structure Metrics where
  ops_per_second : ℚ
  makespan_s : ℚ
  deriving DecidableEq, Repr

/-- The line `calculate_metrics` operates on: `lines[-1].strip()`, except that
when that is empty it uses `lines[-2].strip()` instead, but only when the file
has at least 3 lines (`if len(lines) < 3: return None`); and files with fewer
than 2 lines are rejected outright. -/
def chosenLine (lines : List Str) : Option Str :=
  if lines.length < 2 then none
  else if (pyStrip (lines.getLastD [])).isEmpty then
    if lines.length < 3 then none
    else some (pyStrip (lines.dropLast.getLastD []))
  else some (pyStrip (lines.getLastD []))

/-- Splitting the chosen line on commas and float-parsing the de-dotted first
two fields (`elapsed_ms`, `executed_count`); fewer than 2 fields, or a field
that `float` rejects (an exception the function catches), yields `none`. -/
def parseLine (line : Str) : Option (ℚ × ℚ) :=
  let parts := line.splitOn ','
  if parts.length < 2 then none
  else
    match pyFloat (removeDots (parts.getD 0 [])),
          pyFloat (removeDots (parts.getD 1 [])) with
    | some elapsed_ms, some executed_count => some (elapsed_ms, executed_count)
    | _, _ => none

/-- `calculate_metrics` of the summary script, as a function of the file's
lines (the result of `f.readlines()`).  Any exception inside the Python body
is caught and turned into `None`, so the model is total with `Option`. -/
def calculate_metrics (lines : List Str) : Option Metrics :=
  match chosenLine lines with
  | none => none
  | some line =>
    match parseLine line with
    | none => none
    | some (elapsed_ms, executed_count) =>
      if elapsed_ms ≤ 0 then none
      else some { ops_per_second := executed_count / (elapsed_ms / 1000),
                  makespan_s := elapsed_ms / 1000 }

/-! ## Time-series metric extraction (`process_file`) -/

/-- One row as `csv.DictReader` hands it to `process_file`: the two numeric
cells as raw strings, and the optional flag cells (`row.get('Tracking', '')`
yields `''` when the column is absent, modelled by `Option`). -/
structure RawRow where
  elapsed_time_ms : Str
  executed_count : Str
  tracking : Option Str
  repartitioning : Option Str
  deriving DecidableEq, Repr

/-- One element of the list `process_file` returns. -/
structure Sample where
  elapsed_s : ℚ
  throughput : ℚ
  tracking : ℕ
  repartitioning : ℕ
  deriving DecidableEq, Repr

/-- Round-half-to-even on `ℚ`, the tie rule of Python's `round`: round to the
nearest integer, and to the even neighbour when exactly half-way
(`2*q < 2*⌊q⌋ + 1` says the fractional part is below one half). -/
def roundHalfEven (q : ℚ) : ℤ :=
  let f := ⌊q⌋
  if 2 * q < 2 * f + 1 then f
  else if 2 * q > 2 * f + 1 then f + 1
  else if f % 2 = 0 then f else f + 1

/-- Python `round(x, 1)` over the rational model. -/
def pyRound1 (q : ℚ) : ℚ := (roundHalfEven (q * 10) : ℚ) / 10

/-- The time bucket of a sample: `round(time_ms / 1000.0, 1)`. -/
def timeBucket (time_ms : ℚ) : ℚ := pyRound1 (time_ms / 1000)

/-- `1 if row.get('Tracking', '').strip().lower() == 'x' else 0`. -/
def flagActive (cell : Option Str) : Bool :=
  pyLower (pyStrip (cell.getD [])) = ['x']

/-- The `time_ms, count` floats `process_file` parses from one row
(`float(row['elapsed_time_ms'].replace('.', ''))` and likewise for
`executed_count`); `none` when either raises. -/
def rowVals (r : RawRow) : Option (ℚ × ℚ) :=
  match pyFloat (removeDots r.elapsed_time_ms),
        pyFloat (removeDots r.executed_count) with
  | some time_ms, some count => some (time_ms, count)
  | _, _ => none

/-- The sample `process_file` appends for the consecutive pair of parsed
values `(p, q)` whose second row is `r2` (the flags come from the current,
i.e. second, row of the pair). -/
def mkSample (p q : ℚ × ℚ) (r2 : RawRow) : Sample :=
  { elapsed_s := timeBucket q.1,
    throughput := (q.2 - p.2) / ((q.1 - p.1) / 1000),
    tracking := if flagActive r2.tracking then 1 else 0,
    repartitioning := if flagActive r2.repartitioning then 1 else 0 }

/-- The `if prev_time is not None: ... if delta_time_s > 0: results.append`
step of the row loop: the samples (none or one) emitted while visiting a row
with parsed values `v`, given the previous row's parsed values. -/
def emitStep (prev : Option (ℚ × ℚ)) (v : ℚ × ℚ) (row : RawRow) : List Sample :=
  match prev with
  | none => []
  | some p => if (v.1 - p.1) / 1000 > 0 then [mkSample p v row] else []

/-- The row loop of `process_file`, carrying the previous row's parsed
`(time_ms, count)` pair.  A float-parse failure raises in Python and the
function-level handler returns `None`, discarding every sample already
accumulated; the model mirrors that with the `Option` monad. -/
def processRows (prev : Option (ℚ × ℚ)) : List RawRow → Option (List Sample)
  | [] => some []
  | row :: rest =>
    (rowVals row).bind fun v =>
      (processRows (some v) rest).map fun tail => emitStep prev v row ++ tail

/-- `process_file` of the time-series script, as a function of the parsed CSV
rows. -/
def process_file (rows : List RawRow) : Option (List Sample) :=
  processRows none rows

example :
    process_file
      [ { elapsed_time_ms := strL "0", executed_count := strL "0",
          tracking := none, repartitioning := none },
        { elapsed_time_ms := strL "1.000", executed_count := strL "100",
          tracking := some (strL "x"), repartitioning := some (strL "") } ] =
    some [{ elapsed_s := 1, throughput := 100, tracking := 1, repartitioning := 0 }] := by
  have h1 : rowVals { elapsed_time_ms := strL "0", executed_count := strL "0",
                      tracking := none, repartitioning := none } = some (0, 0) := rfl
  have h2 : rowVals { elapsed_time_ms := strL "1.000", executed_count := strL "100",
                      tracking := some (strL "x"), repartitioning := some (strL "") }
      = some (1000, 100) := rfl
  have h4 : flagActive (some (strL "x")) = true := rfl
  have h5 : flagActive (some (strL "")) = false := rfl
  simp only [process_file, processRows, h1, h2, Option.some_bind, Option.map_some']
  norm_num [emitStep, mkSample, h4, h5, timeBucket, pyRound1, roundHalfEven]

/-! ## Ordered association lists

All Python `dict`s in the two scripts (`defaultdict(list)`, `metadata`,
`time_points`, `chart_data`) iterate in key-insertion order; they are modelled
as association lists in which a key occurs at most once, at the position of
its first insertion. -/

/-- Python dict lookup `d[k]` (as an `Option`). -/
def alookup {κ β : Type} [DecidableEq κ] : List (κ × β) → κ → Option β
  | [], _ => none
  | (k', b) :: rest, k => if k' = k then some b else alookup rest k

/-- `d[k].append(a)` on a `defaultdict(list)`: extend the entry of `k` in
place, or create it at the end in insertion order. -/
def appendAt {κ α : Type} [DecidableEq κ] (acc : List (κ × List α)) (k : κ)
    (a : α) : List (κ × List α) :=
  match acc with
  | [] => [(k, [a])]
  | (k', l) :: rest =>
    if k' = k then (k', l ++ [a]) :: rest else (k', l) :: appendAt rest k a

/-- `d[k].extend(new)` on a `defaultdict(list)`. -/
def extendAt {κ α : Type} [DecidableEq κ] (acc : List (κ × List α)) (k : κ)
    (new : List α) : List (κ × List α) :=
  match acc with
  | [] => [(k, new)]
  | (k', l) :: rest =>
    if k' = k then (k', l ++ new) :: rest else (k', l) :: extendAt rest k new

/-- `if k not in d: d[k] = b`. -/
def insertIfAbsent {κ β : Type} [DecidableEq κ] (acc : List (κ × β)) (k : κ)
    (b : β) : List (κ × β) :=
  match acc with
  | [] => [(k, b)]
  | (k', b') :: rest =>
    if k' = k then (k', b') :: rest else (k', b') :: insertIfAbsent rest k b

/-- The directory-listing filter of both scripts:
`f.endswith('.csv') and '(' in f`. -/
def keepFile (name : Str) : Bool :=
  (strL ".csv").isSuffixOf name && name.contains '('

/-- `sum(l) / len(l)`, the arithmetic mean both scripts compute. -/
def meanQ (l : List ℚ) : ℚ := l.sum / l.length

/-! ## The summary script's `main` (`aggregate_results.py`)

The input directory is modelled as the list of `(filename, lines)` pairs that
`os.listdir` + `readlines` produce, in listing order. -/

/-- One iteration of the summary file loop: parse the filename, extract the
metrics, and on success append the metrics to `results[key]` and record
`metadata[key]` if the key is new. -/
def summaryStep (acc : List (Str × List Metrics) × List (Str × RunId))
    (fc : Str × List Str) : List (Str × List Metrics) × List (Str × RunId) :=
  match parse_filename fc.1 with
  | none => acc
  | some params =>
    match calculate_metrics fc.2 with
    | none => acc
    | some metrics =>
      (appendAt acc.1 params.key metrics, insertIfAbsent acc.2 params.key params)

/-- The summary file loop: the pair of the `results` and `metadata` dicts it
leaves behind. -/
def summaryFold (files : List (Str × List Str)) :
    List (Str × List Metrics) × List (Str × RunId) :=
  (files.filter (fun fc => keepFile fc.1)).foldl summaryStep ([], [])

/-- The successful iterations of the summary file loop, in file order: the
`(params, metrics)` pairs that survive both `parse_filename` and
`calculate_metrics`.  `summaryFold` is proved below to be determined by this
list. -/
def successRuns (files : List (Str × List Str)) : List (RunId × Metrics) :=
  (files.filter (fun fc => keepFile fc.1)).filterMap fun fc =>
    match parse_filename fc.1 with
    | none => none
    | some params => (calculate_metrics fc.2).map fun m => (params, m)

/-- A data row of a summary output CSV.  The `value` column is written under
the header `ops_per_second` in the `throughput/` files and `makespan_s` in the
`makespan/` files; the seven configuration columns are shared. -/
structure SumRow where
  workload : Str
  workers : ℕ
  storage_type : Str
  partitions : ℕ
  storage_engine : Str
  paths : ℕ
  interval : ℕ
  value : ℚ
  deriving DecidableEq, Repr

/-- `f"{meta['workload']}__{meta['storage_engine']}"`, the output grouping
key of the summary script. -/
def output_key (meta : RunId) : Str :=
  meta.workload ++ sepDU ++ meta.storage_engine

/-- The `common_meta` dictionary plus the metric value: one output row. -/
def commonRow (meta : RunId) (v : ℚ) : SumRow :=
  { workload := meta.workload, workers := meta.workers,
    storage_type := meta.storage_type, partitions := meta.partitions,
    storage_engine := meta.storage_engine, paths := meta.paths,
    interval := meta.interval, value := v }

/-- The aggregation loop of the summary script for one of its two metrics:
for each configuration key of `results` (in insertion order) look up its
metadata, average the metric over the key's runs, and append the row to the
output group `workload__storage_engine`.  A missing metadata entry would
raise `KeyError` in Python; the model skips it, and the invariant proved
below (claim C10) shows the case never arises. -/
def groupedSum (files : List (Str × List Str)) (metric : Metrics → ℚ) :
    List (Str × List SumRow) :=
  (summaryFold files).1.foldl
    (fun acc km =>
      match alookup (summaryFold files).2 km.1 with
      | none => acc
      | some meta =>
        appendAt acc (output_key meta) (commonRow meta (meanQ (km.2.map metric))))
    []

/-- The sort key of the summary writer:
`sorted(data_list, key=lambda x: (x['workers'], x['storage_type'], x['partitions']))`,
with Python's lexicographic tuple and string comparison. -/
def sortTriple (row : SumRow) : ℕ ×ₗ (Str ×ₗ ℕ) :=
  toLex (row.workers, toLex (row.storage_type, row.partitions))

/-- The (total, transitive) row order induced by `sortTriple`. -/
def rowLE (a b : SumRow) : Prop := sortTriple a ≤ sortTriple b

instance : DecidableRel rowLE := fun a b =>
  inferInstanceAs (Decidable (sortTriple a ≤ sortTriple b))

instance : IsTotal SumRow rowLE := ⟨fun a b => le_total (sortTriple a) (sortTriple b)⟩

instance : IsTrans SumRow rowLE := ⟨fun _ _ _ hab hbc => le_trans hab hbc⟩

/-- The data rows of the summary throughput CSV written for output group `g`
(empty when no such file is written).  Python's `sorted` is modelled by
`insertionSort`: both are stable sorts for the same total preorder, and a
stable sort's output is unique. -/
def throughputRows (files : List (Str × List Str)) (g : Str) : List SumRow :=
  match alookup (groupedSum files (fun m => m.ops_per_second)) g with
  | none => []
  | some data_list => data_list.insertionSort rowLE

/-- The data rows of the summary makespan CSV written for output group `g`. -/
def makespanRows (files : List (Str × List Str)) (g : Str) : List SumRow :=
  match alookup (groupedSum files (fun m => m.makespan_s)) g with
  | none => []
  | some data_list => data_list.insertionSort rowLE

/-! ## The time-series script's `main` (`aggregate_throughput_time.py`)

The input directory is modelled as the list of `(filename, rows)` pairs,
where `rows` is what `csv.DictReader` yields for the file. -/

/-- `config_groups`: files grouped by configuration key in insertion order,
each entry carrying the file's rows and its parsed parameters. -/
def tsGroups (files : List (Str × List RawRow)) :
    List (Str × List (List RawRow × RunId)) :=
  (files.filter (fun fc => keepFile fc.1)).foldl
    (fun acc fc =>
      match parse_filename fc.1 with
      | none => acc
      | some params => appendAt acc params.key (fc.2, params))
    []

/-- The `time_points` dict of one configuration group: every sample of every
successfully processed file of the group, keyed by its time bucket, in
insertion order.  (`if data:` skips both a failed file and an empty sample
list.) -/
def timePointsOf (group : List (List RawRow × RunId)) : List (ℚ × List Sample) :=
  group.foldl
    (fun acc fp =>
      match process_file fp.1 with
      | none => acc
      | some data =>
        if data.isEmpty then acc
        else data.foldl (fun acc2 e => appendAt acc2 e.elapsed_s e) acc)
    []

/-- Python `min` of a non-empty list (the `[]` case never arises; `0` is a
junk value). -/
def listMin (l : List ℚ) : ℚ :=
  match l with
  | [] => 0
  | x :: xs => xs.foldl min x

/-- Python `max` of a non-empty list. -/
def listMax (l : List ℚ) : ℚ :=
  match l with
  | [] => 0
  | x :: xs => xs.foldl max x

/-- A data row of a time-series chart CSV. -/
structure AggRow where
  elapsed_s : ℚ
  mean : ℚ
  min : ℚ
  max : ℚ
  tracking_prob : ℚ
  repartitioning_prob : ℚ
  storage_type : Str
  partitions : ℕ
  paths : ℕ
  interval : ℕ
  line_label : Str
  deriving DecidableEq, Repr

/-- The aggregated row the time-series script emits for time bucket `t` from
the bucket's `entries`: mean/min/max throughput, the two flag frequencies
`sum(flags)/len(entries)`, and the configuration columns of the group's first
file. -/
def mkAggRow (t : ℚ) (entries : List Sample) (params : RunId) : AggRow :=
  let tps := entries.map fun e => e.throughput
  { elapsed_s := t,
    mean := meanQ tps,
    min := listMin tps,
    max := listMax tps,
    tracking_prob := ((entries.map fun e => e.tracking).sum : ℚ) / entries.length,
    repartitioning_prob :=
      ((entries.map fun e => e.repartitioning).sum : ℚ) / entries.length,
    storage_type := params.storage_type,
    partitions := params.partitions,
    paths := params.paths,
    interval := params.interval,
    line_label :=
      params.storage_type ++ '_' :: 'p' :: natToDigits params.partitions ++
        '_' :: 'w' :: natToDigits params.paths ++
        '_' :: 'i' :: natToDigits params.interval }

/-- The `aggregated_rows` of one configuration group: one row per time bucket,
buckets visited in ascending order (`for t in sorted(time_points.keys())`). -/
def aggRowsOf (group : List (List RawRow × RunId)) (params : RunId) :
    List AggRow :=
  let tp := timePointsOf group
  let times := (tp.map Prod.fst).insertionSort (fun a b => a ≤ b)
  times.map fun t => mkAggRow t ((alookup tp t).getD []) params

/-- The `chart_data` dict: for every configuration group (in insertion order)
with a non-empty `time_points`, its aggregated rows are appended to the entry
of the group's chart key (`workload__engine__workers`). -/
def tsChartData (files : List (Str × List RawRow)) : List (Str × List AggRow) :=
  (tsGroups files).foldl
    (fun acc kg =>
      match kg.2 with
      | [] => acc
      | (_, params) :: _ =>
        if (timePointsOf kg.2).isEmpty then acc
        else extendAt acc params.chart_key (aggRowsOf kg.2 params))
    []

/-- The data rows of the time-series CSV written for chart key `ck` (empty
when no such file is written). -/
def tsRows (files : List (Str × List RawRow)) (ck : Str) : List AggRow :=
  (alookup (tsChartData files) ck).getD []

/-! ## Lemmas about decimal numerals -/

theorem natDigitsRev_eq (fuel n : ℕ) (h : n ≤ fuel) :
    natDigitsRev fuel n = Nat.digits 10 n := by
  induction fuel generalizing n with
  | zero =>
    interval_cases n
    simp [natDigitsRev]
  | succ fuel ih =>
    by_cases hn : n = 0
    · subst hn; simp [natDigitsRev]
    · rw [natDigitsRev]
      simp only [if_neg hn]
      rw [Nat.digits_def' (by norm_num : (1:ℕ) < 10) (Nat.pos_of_ne_zero hn)]
      have hlt : n / 10 < n := Nat.div_lt_self (Nat.pos_of_ne_zero hn) (by norm_num)
      rw [ih (n / 10) (by omega)]

theorem charVal_digitChar {d : ℕ} (h : d < 10) : charVal (digitChar d) = d := by
  interval_cases d <;> rfl

theorem isDigit_digitChar {d : ℕ} (h : d < 10) : (digitChar d).isDigit = true := by
  interval_cases d <;> rfl

theorem digitsToNat_natToDigits (n : ℕ) : digitsToNat (natToDigits n) = n := by
  by_cases hn : n = 0
  · subst hn; rfl
  · rw [natToDigits, if_neg hn, natDigitsRev_eq n n le_rfl, digitsToNat]
    rw [List.map_reverse, List.reverse_reverse, List.map_map]
    have : List.map (charVal ∘ digitChar) (Nat.digits 10 n) =
        List.map id (Nat.digits 10 n) := by
      apply List.map_congr_left
      intro d hd
      exact charVal_digitChar (Nat.digits_lt_base (by norm_num) hd)
    rw [this, List.map_id, Nat.ofDigits_digits]

theorem mem_natToDigits_isDigit {n : ℕ} {c : Char} (h : c ∈ natToDigits n) :
    c.isDigit = true := by
  by_cases hn : n = 0
  · subst hn
    rw [natToDigits, if_pos rfl, List.mem_singleton] at h
    subst h; rfl
  · rw [natToDigits, if_neg hn, natDigitsRev_eq n n le_rfl] at h
    rw [List.mem_reverse, List.mem_map] at h
    obtain ⟨d, hd, rfl⟩ := h
    exact isDigit_digitChar (Nat.digits_lt_base (by norm_num) hd)

theorem natToDigits_ne_nil (n : ℕ) : natToDigits n ≠ [] := by
  by_cases hn : n = 0
  · subst hn; simp [natToDigits]
  · rw [natToDigits, if_neg hn, natDigitsRev_eq n n le_rfl]
    simp [Nat.digits_ne_nil_iff_ne_zero, hn]

theorem pyInt_natToDigits (n : ℕ) : pyInt (natToDigits n) = some n := by
  rw [pyInt, if_neg, if_pos, digitsToNat_natToDigits]
  · rw [List.all_eq_true]
    intro c hc
    exact mem_natToDigits_isDigit hc
  · simp [List.isEmpty_iff, natToDigits_ne_nil n]

/-- A digit character is not one of the structural characters. -/
theorem mem_natToDigits_ne {n : ℕ} {c : Char} (h : c ∈ natToDigits n)
    {c₀ : Char} (h₀ : c₀.isDigit = false) : c ≠ c₀ := by
  intro hc
  subst hc
  rw [mem_natToDigits_isDigit h] at h₀
  cases h₀

/-! ## Lemmas about `splitSep` and well-formed fields -/

/-- A string field is *safe* for the `__`-delimited filename format when it
contains no two adjacent underscores and does not end in an underscore (an
ending underscore would merge with the following delimiter into `___`, making
the greedy split cut one character early). -/
def goodF : Str → Bool
  | [] => true
  | [c] => decide (c ≠ '_')
  | c :: c' :: rest => decide (¬(c = '_' ∧ c' = '_')) && goodF (c' :: rest)

/-- The non-delimiter step of `splitSep`, packaged without the overlapping
match hypotheses: whenever the first two characters are not both
underscores. -/
theorem splitSep_cons (c : Char) (rest : Str)
    (h : c ≠ '_' ∨ rest.head? ≠ some '_') :
    splitSep (c :: rest) =
      match splitSep rest with
      | [] => [[c]]
      | h :: t => (c :: h) :: t := by
  apply splitSep.eq_3
  intro r1 hc hr
  cases h with
  | inl h => exact h hc
  | inr h => exact h (by rw [hr]; rfl)

theorem splitSep_ne_nil (l : Str) : splitSep l ≠ [] := by
  induction l with
  | nil => simp [splitSep]
  | cons c rest ih =>
    by_cases h : c = '_' ∧ rest.head? = some '_'
    · obtain ⟨rfl, hh⟩ := h
      cases rest with
      | nil => simp at hh
      | cons c' rest' =>
        rw [List.head?_cons, Option.some_inj] at hh
        subst hh
        simp [splitSep]
    · rw [splitSep_cons c rest (by tauto)]
      cases hs : splitSep rest <;> simp

/-- Splitting `field ++ "__" ++ rest` peels off exactly `field` when the field
is safe. -/
theorem splitSep_append (rest : Str) :
    ∀ a : Str, goodF a = true →
      splitSep (a ++ '_' :: '_' :: rest) = a :: splitSep rest := by
  intro a
  induction a with
  | nil => intro _; rfl
  | cons c a ih =>
    intro hg
    cases a with
    | nil =>
      rw [goodF] at hg
      have hc : c ≠ '_' := of_decide_eq_true hg
      rw [List.cons_append, List.nil_append, splitSep_cons c _ (Or.inl hc)]
      rfl
    | cons c' a' =>
      rw [goodF, Bool.and_eq_true] at hg
      obtain ⟨h1, h2⟩ := hg
      have h1 : ¬(c = '_' ∧ c' = '_') := of_decide_eq_true h1
      rw [List.cons_append, splitSep_cons c _ ?side]
      · rw [ih h2]
      case side =>
        by_cases hc : c = '_'
        · right
          have : c' ≠ '_' := fun hc' => h1 ⟨hc, hc'⟩
          simp [this]
        · exact Or.inl hc

/-- A safe field with no delimiter after it splits to itself alone. -/
theorem splitSep_solo : ∀ a : Str, goodF a = true → splitSep a = [a] := by
  intro a
  induction a with
  | nil => intro _; rfl
  | cons c a ih =>
    intro hg
    cases a with
    | nil =>
      rw [splitSep_cons c [] (by simp)]
      rfl
    | cons c' a' =>
      rw [goodF, Bool.and_eq_true] at hg
      obtain ⟨h1, h2⟩ := hg
      have h1 : ¬(c = '_' ∧ c' = '_') := of_decide_eq_true h1
      rw [splitSep_cons c _ ?side2]
      · rw [ih h2]
      case side2 =>
        by_cases hc : c = '_'
        · right
          have : c' ≠ '_' := fun hc' => h1 ⟨hc, hc'⟩
          simp [this]
        · exact Or.inl hc

/-- Digit strings are safe fields. -/
theorem goodF_of_digits : ∀ l : Str, (∀ c ∈ l, c.isDigit = true) → goodF l = true := by
  intro l
  induction l with
  | nil => intro _; rfl
  | cons c a ih =>
    intro h
    have hc : c ≠ '_' := by
      intro hc
      have := h c (List.mem_cons_self c a)
      rw [hc] at this
      cases this
    cases a with
    | nil => simp [goodF, hc]
    | cons c' a' =>
      rw [goodF, Bool.and_eq_true]
      constructor
      · simp [hc]
      · exact ih fun x hx => h x (List.mem_cons_of_mem c hx)

theorem goodF_natToDigits (n : ℕ) : goodF (natToDigits n) = true :=
  goodF_of_digits _ fun _ hc => mem_natToDigits_isDigit hc

/-! ## The filename round trip (claim C5) -/

theorem rstripExt_append_csv (body : Str) : rstripExt (body ++ strL ".csv") = body := by
  have h : strL ".csv" = ['.', 'c', 's', 'v'] := rfl
  rw [h, rstripExt, if_pos (by simp), List.reverse_append]
  have h2 : ((['.', 'c', 's', 'v'] : Str).reverse ++ body.reverse)
      = 'v' :: 's' :: 'c' :: '.' :: body.reverse := rfl
  rw [h2]
  simp +decide [List.dropWhile_cons]

theorem takeWhile_boundary (p : Char → Bool) (l1 l2 : Str) (c : Char)
    (h1 : ∀ x ∈ l1, p x = true) (hc : p c = false) :
    (l1 ++ c :: l2).takeWhile p = l1 ∧ (l1 ++ c :: l2).dropWhile p = c :: l2 := by
  induction l1 with
  | nil => simp [List.takeWhile_cons, List.dropWhile_cons, hc]
  | cons a l ih =>
    have ha : p a = true := h1 a (List.mem_cons_self a l)
    have := ih fun x hx => h1 x (List.mem_cons_of_mem a hx)
    simp [List.takeWhile_cons, List.dropWhile_cons, ha, this.1, this.2]

theorem stripRep_append (a : Str) (n : ℕ) :
    stripRep (a ++ '(' :: (natToDigits n ++ [')'])) = some (a, n) := by
  have hrev : (a ++ '(' :: (natToDigits n ++ [')'])).reverse
      = ')' :: ((natToDigits n).reverse ++ '(' :: a.reverse) := by
    simp [List.reverse_append]
  have hb := takeWhile_boundary Char.isDigit (natToDigits n).reverse a.reverse '('
    (fun x hx => mem_natToDigits_isDigit (List.mem_reverse.mp hx)) (by rfl)
  have hne : ¬((natToDigits n).reverse.isEmpty = true) := by
    simp [List.isEmpty_iff, natToDigits_ne_nil n]
  rw [stripRep, hrev, stripRepRev, if_pos rfl]
  simp only [hb.1, hb.2]
  rw [if_pos trivial, if_neg hne, List.reverse_reverse, List.reverse_reverse,
    digitsToNat_natToDigits]

/-- The body (filename without extension) that `encodeFilename` produces. -/
theorem encode_body (w st se : Str) (wk pt ph iv rep : ℕ) :
    encodeFilename w wk st pt se ph iv rep =
      ((w ++ '_' :: '_' :: (natToDigits wk ++ '_' :: '_' :: (st ++ '_' :: '_' ::
        (natToDigits pt ++ '_' :: '_' :: (se ++ '_' :: '_' :: (natToDigits ph ++
        '_' :: '_' :: natToDigits iv)))))) ++
      ('(' :: (natToDigits rep ++ [')']))) ++ strL ".csv" := by
  rw [encodeFilename]
  have hsep : sepDU = ['_', '_'] := rfl
  simp [hsep, List.append_assoc]

theorem splitSep_encode_body (w st se : Str) (wk pt ph iv : ℕ)
    (hw : goodF w = true) (hst : goodF st = true) (hse : goodF se = true) :
    splitSep (w ++ '_' :: '_' :: (natToDigits wk ++ '_' :: '_' :: (st ++ '_' :: '_' ::
        (natToDigits pt ++ '_' :: '_' :: (se ++ '_' :: '_' :: (natToDigits ph ++
        '_' :: '_' :: natToDigits iv)))))) =
      [w, natToDigits wk, st, natToDigits pt, se, natToDigits ph, natToDigits iv] := by
  rw [splitSep_append _ _ hw,
      splitSep_append _ _ (goodF_natToDigits wk),
      splitSep_append _ _ hst,
      splitSep_append _ _ (goodF_natToDigits pt),
      splitSep_append _ _ hse,
      splitSep_append _ _ (goodF_natToDigits ph),
      splitSep_solo _ (goodF_natToDigits iv)]

/-- **Claim C5, amended.**  Filename decoding recovers every encoded field,
for every configuration whose string fields contain no two adjacent
underscores *and do not end in an underscore*, and whose numeric fields are
non-negative integers: `parse_filename` applied to the encoded filename
returns a record carrying exactly the eight encoded fields.  (The extra
no-trailing-underscore requirement is forced by the counterexample
`C5_counterexample` below.) -/
theorem C5_filename_roundtrip (w st se : Str) (wk pt ph iv rep : ℕ)
    (hw : goodF w = true) (hst : goodF st = true) (hse : goodF se = true) :
    ∃ p : RunId, parse_filename (encodeFilename w wk st pt se ph iv rep) = some p ∧
      p.workload = w ∧ p.workers = wk ∧ p.storage_type = st ∧ p.partitions = pt ∧
      p.storage_engine = se ∧ p.paths = ph ∧ p.interval = iv ∧ p.rep = rep := by
  rw [encode_body, parse_filename]
  rw [rstripExt_append_csv, stripRep_append]
  simp only [splitSep_encode_body w st se wk pt ph iv hw hst hse,
    pyInt_natToDigits]
  exact ⟨_, rfl, rfl, rfl, rfl, rfl, rfl, rfl, rfl, rfl⟩

/-- Closed witness for `C5_filename_roundtrip` at a concrete configuration. -/
theorem C5_filename_roundtrip_witness :
    ∃ p : RunId,
      parse_filename (encodeFilename (strL "ycsb_a") 4 (strL "engine") 2
        (strL "tkrzw_tree") 1 0 3) = some p ∧
      p.workload = strL "ycsb_a" ∧ p.workers = 4 ∧ p.storage_type = strL "engine" ∧
      p.partitions = 2 ∧ p.storage_engine = strL "tkrzw_tree" ∧ p.paths = 1 ∧
      p.interval = 0 ∧ p.rep = 3 :=
  C5_filename_roundtrip (strL "ycsb_a") (strL "engine") (strL "tkrzw_tree")
    4 2 1 0 3 (by decide) (by decide) (by decide)

/-- **Counterexample to claim C5 as stated.**  The workload `"a_"` contains no
double underscore, yet decoding its encoded filename fails: the encoded name
is `a___1__s__1__e__1__0(1).csv`, the greedy `split('__')` cuts `a___1` into
`a` and `_1`, and `int('_1')` fails, so no fields are recovered. -/
theorem C5_counterexample :
    parse_filename (encodeFilename (strL "a_") 1 (strL "s") 1 (strL "e") 1 0 1)
      = none := by decide

/-! ## Summary metric extraction: claims C3 and C4 -/

theorem chosenLine_eq_none (lines : List Str) :
    chosenLine lines = none ↔
      lines.length < 2
      ∨ ((pyStrip (lines.getLastD [])).isEmpty = true ∧ lines.length < 3) := by
  rw [chosenLine]
  by_cases h1 : lines.length < 2
  · rw [if_pos h1]
    exact ⟨fun _ => Or.inl h1, fun _ => rfl⟩
  · rw [if_neg h1]
    by_cases h2 : (pyStrip (lines.getLastD [])).isEmpty = true
    · rw [if_pos h2]
      by_cases h3 : lines.length < 3
      · rw [if_pos h3]
        exact ⟨fun _ => Or.inr ⟨h2, h3⟩, fun _ => rfl⟩
      · rw [if_neg h3]
        constructor
        · intro h; cases h
        · intro h
          rcases h with h | ⟨_, h⟩
          · exact absurd h h1
          · exact absurd h h3
    · rw [if_neg h2]
      constructor
      · intro h; cases h
      · intro h
        rcases h with h | ⟨hb, _⟩
        · exact absurd h h1
        · exact absurd hb h2

theorem parseLine_eq_none (line : Str) :
    parseLine line = none ↔
      (line.splitOn ',').length < 2
      ∨ pyFloat (removeDots ((line.splitOn ',').getD 0 [])) = none
      ∨ pyFloat (removeDots ((line.splitOn ',').getD 1 [])) = none := by
  rw [parseLine]
  by_cases h : (line.splitOn ',').length < 2
  · simp [h]
  · cases hf1 : pyFloat (removeDots ((line.splitOn ',').getD 0 [])) <;>
      cases hf2 : pyFloat (removeDots ((line.splitOn ',').getD 1 [])) <;>
      simp [h, hf1, hf2]

/-- The fallback rule of `calculate_metrics`: with at least 3 lines and a
blank final line, the line used is exactly `lines[-2].strip()`. -/
theorem chosenLine_fallback (lines : List Str) (h3 : 3 ≤ lines.length)
    (hblank : (pyStrip (lines.getLastD [])).isEmpty = true) :
    chosenLine lines = some (pyStrip (lines.dropLast.getLastD [])) := by
  rw [chosenLine, if_neg (by omega), if_pos hblank, if_neg (by omega)]

/-- **Claim C3, amended.**  `calculate_metrics` returns no result *exactly*
when: the file has fewer than 2 lines; or the final line is blank and the
file has fewer than 3 lines (no fallback happens then — this is the condition
the original claim misses, see `C3_counterexample`); or the chosen line has
fewer than 2 comma fields or a field that `float` rejects; or the parsed
elapsed milliseconds is non-positive.  The fallback to `lines[-2]` happens
exactly when the final line is blank and the file has at least 3 lines.
The function is total, so a short file never crashes the run. -/
theorem C3_skip_conditions (lines : List Str) :
    (calculate_metrics lines = none ↔
      lines.length < 2
      ∨ ((pyStrip (lines.getLastD [])).isEmpty = true ∧ lines.length < 3)
      ∨ ∃ line, chosenLine lines = some line ∧
          ((line.splitOn ',').length < 2
           ∨ pyFloat (removeDots ((line.splitOn ',').getD 0 [])) = none
           ∨ pyFloat (removeDots ((line.splitOn ',').getD 1 [])) = none
           ∨ ∃ e c : ℚ, parseLine line = some (e, c) ∧ e ≤ 0))
    ∧ (3 ≤ lines.length → (pyStrip (lines.getLastD [])).isEmpty = true →
        chosenLine lines = some (pyStrip (lines.dropLast.getLastD []))) := by
  refine ⟨?_, chosenLine_fallback lines⟩
  cases hc : chosenLine lines with
  | none =>
    have hdis := (chosenLine_eq_none lines).mp hc
    simp only [calculate_metrics, hc]
    constructor
    · intro _
      rcases hdis with h | h
      · exact Or.inl h
      · exact Or.inr (Or.inl h)
    · intro _; trivial
  | some line =>
    have hcn : ¬(lines.length < 2
        ∨ ((pyStrip (lines.getLastD [])).isEmpty = true ∧ lines.length < 3)) := by
      rw [← chosenLine_eq_none, hc]
      simp
    cases hp : parseLine line with
    | none =>
      have hfail := (parseLine_eq_none line).mp hp
      simp only [calculate_metrics, hc, hp]
      constructor
      · intro _
        refine Or.inr (Or.inr ⟨line, rfl, ?_⟩)
        rcases hfail with h | h | h
        · exact Or.inl h
        · exact Or.inr (Or.inl h)
        · exact Or.inr (Or.inr (Or.inl h))
      · intro _; trivial
    | some ec =>
      obtain ⟨e, c⟩ := ec
      simp only [calculate_metrics, hc, hp]
      by_cases he : e ≤ 0
      · rw [if_pos he]
        constructor
        · intro _
          exact Or.inr (Or.inr ⟨line, rfl,
            Or.inr (Or.inr (Or.inr ⟨e, c, hp, he⟩))⟩)
        · intro _; trivial
      · rw [if_neg he]
        constructor
        · intro h; cases h
        · intro hr
          exfalso
          rcases hr with h | h | ⟨line', hline', hbad⟩
          · exact hcn (Or.inl h)
          · exact hcn (Or.inr h)
          · have hl : line' = line := (Option.some.inj hline').symm
            subst hl
            have hsome : parseLine line' ≠ none := by rw [hp]; simp
            rcases hbad with hb | hb | hb | ⟨e', c', hpc, he'⟩
            · exact hsome ((parseLine_eq_none line').mpr (Or.inl hb))
            · exact hsome ((parseLine_eq_none line').mpr (Or.inr (Or.inl hb)))
            · exact hsome ((parseLine_eq_none line').mpr (Or.inr (Or.inr hb)))
            · rw [hp] at hpc
              have hpc' := Option.some.inj hpc
              rw [Prod.mk.injEq] at hpc'
              obtain ⟨rfl, rfl⟩ := hpc'
              exact he he'

/-- Closed witness for `C3_skip_conditions`: a one-line file is skipped, and
the iff certifies it through the fewer-than-2-lines disjunct. -/
theorem C3_skip_conditions_witness :
    calculate_metrics [strL "1000,500"] = none :=
  (C3_skip_conditions [strL "1000,500"]).1.mpr (Or.inl (by simp [strL]))

/-- **Counterexample to claim C3 as stated.**  A 2-line file whose final line
is blank: the claim's three skip conditions all fail (the file has 2 lines;
the last non-empty line `"1000,500"` has 2 comma fields and parses to elapsed
`1000 > 0`), and the claim's fallback clause says the previous line is used,
so the claim predicts a metric; but the code requires at least 3 lines before
falling back (`if len(lines) < 3: return None`) and produces nothing. -/
theorem C3_counterexample :
    calculate_metrics [strL "1000,500\n", strL "\n"] = none
    ∧ ¬([strL "1000,500\n", strL "\n"] : List Str).length < 2
    ∧ (pyStrip (([strL "1000,500\n", strL "\n"] : List Str).getLastD [])).isEmpty = true
    ∧ pyStrip (strL "1000,500\n") = strL "1000,500"
    ∧ parseLine (strL "1000,500") = some (1000, 500)
    ∧ ¬(1000 : ℚ) ≤ 0 :=
  ⟨rfl, by simp [strL], rfl, rfl, rfl, by norm_num⟩

/-- **Claim C4 (confirmed).**  Whenever the summary extractor produces a
metric, the metric comes from the chosen line's de-dotted fields
`elapsed_ms, count` with `elapsed_ms > 0`, and equals
`ops/second = count / (elapsed_ms/1000)`, `makespan_s = elapsed_ms/1000`;
in particular the file with last line `"1000,500"` yields 500 ops/second, and
the file with last line `"0,500"` is excluded (no metric). -/
theorem C4_summary_metrics :
    (∀ (lines : List Str) (m : Metrics), calculate_metrics lines = some m →
      ∃ (line : Str) (e c : ℚ), chosenLine lines = some line ∧
        parseLine line = some (e, c) ∧ 0 < e ∧
        m.ops_per_second = c / (e / 1000) ∧ m.makespan_s = e / 1000)
    ∧ calculate_metrics [strL "elapsed,count", strL "1000,500"]
        = some { ops_per_second := 500, makespan_s := 1 }
    ∧ calculate_metrics [strL "elapsed,count", strL "0,500"] = none := by
  refine ⟨?_, ?_, ?_⟩
  · intro lines m h
    cases hc : chosenLine lines with
    | none =>
      simp only [calculate_metrics, hc] at h
      exact Option.noConfusion h
    | some line =>
      cases hp : parseLine line with
      | none =>
        simp only [calculate_metrics, hc, hp] at h
        exact Option.noConfusion h
      | some ec =>
        obtain ⟨e, c⟩ := ec
        simp only [calculate_metrics, hc, hp] at h
        by_cases he : e ≤ 0
        · rw [if_pos he] at h; cases h
        · rw [if_neg he] at h
          have hm := Option.some.inj h
          exact ⟨line, e, c, rfl, hp, not_le.mp he, by rw [← hm], by rw [← hm]⟩
  · have h1 : chosenLine [strL "elapsed,count", strL "1000,500"]
        = some (strL "1000,500") := rfl
    have h2 : parseLine (strL "1000,500") = some (1000, 500) := rfl
    simp only [calculate_metrics, h1, h2]
    rw [if_neg (by norm_num : ¬(1000 : ℚ) ≤ 0)]
    norm_num [Metrics.mk.injEq]
  · have h1 : chosenLine [strL "elapsed,count", strL "0,500"]
        = some (strL "0,500") := rfl
    have h2 : parseLine (strL "0,500") = some (0, 500) := rfl
    simp only [calculate_metrics, h1, h2]
    rw [if_pos (le_refl (0 : ℚ))]

/-- Closed witness for `C4_summary_metrics`: its general clause applied to a
concrete accepted file. -/
theorem C4_summary_metrics_witness :
    ∃ (line : Str) (e c : ℚ),
      chosenLine [strL "elapsed,count", strL "2000,300"] = some line ∧
      parseLine line = some (e, c) ∧ 0 < e ∧
      (150 : ℚ) = c / (e / 1000) ∧ (2 : ℚ) = e / 1000 := by
  have hcm : calculate_metrics [strL "elapsed,count", strL "2000,300"]
      = some { ops_per_second := 150, makespan_s := 2 } := by
    have h1 : chosenLine [strL "elapsed,count", strL "2000,300"]
        = some (strL "2000,300") := rfl
    have h2 : parseLine (strL "2000,300") = some (2000, 300) := rfl
    simp only [calculate_metrics, h1, h2]
    rw [if_neg (by norm_num : ¬(2000 : ℚ) ≤ 0)]
    norm_num [Metrics.mk.injEq]
  obtain ⟨line, e, c, hc, hp, he, ho, hk⟩ :=
    C4_summary_metrics.1 [strL "elapsed,count", strL "2000,300"] _ hcm
  exact ⟨line, e, c, hc, hp, he, ho, hk⟩

/-! ## Time-series extraction: the row-pair analysis behind claims C1, C2, C7 -/

/-- The parsed values of every row (`none` when any row fails to parse). -/
def valsOf : List RawRow → Option (List (ℚ × ℚ))
  | [] => some []
  | r :: rest =>
    match rowVals r, valsOf rest with
    | some v, some vs => some (v :: vs)
    | _, _ => none

/-- The number of consecutive value pairs with positive time delta — the
pairs for which `process_file` emits a sample. -/
def pairsPos : List (ℚ × ℚ) → ℕ
  | p :: q :: rest => (if 0 < (q.1 - p.1) / 1000 then 1 else 0) + pairsPos (q :: rest)
  | _ => 0

theorem emitStep_none (v : ℚ × ℚ) (row : RawRow) : emitStep none v row = [] := rfl

theorem emitStep_some (p v : ℚ × ℚ) (row : RawRow) :
    emitStep (some p) v row
      = if 0 < (v.1 - p.1) / 1000 then [mkSample p v row] else [] := rfl

theorem processRows_mem_spec (rows : List RawRow) :
    ∀ (prev : Option (ℚ × ℚ)) (samples : List Sample),
      processRows prev rows = some samples →
      ∀ s ∈ samples, ∃ (p q : ℚ × ℚ) (r2 : RawRow),
        ((∃ r, prev = some p ∧ rows.get? 0 = some r ∧ rowVals r = some q ∧ r2 = r)
          ∨ ∃ i r1, rows.get? i = some r1 ∧ rows.get? (i+1) = some r2 ∧
              rowVals r1 = some p ∧ rowVals r2 = some q) ∧
        0 < (q.1 - p.1) / 1000 ∧ s = mkSample p q r2 := by
  induction rows with
  | nil =>
    intro prev samples h s hs
    rw [processRows] at h
    rw [← Option.some.inj h] at hs
    cases hs
  | cons row rest ih =>
    intro prev samples h s hs
    rw [processRows] at h
    cases hrv : rowVals row with
    | none =>
      rw [hrv, Option.none_bind] at h
      exact Option.noConfusion h
    | some v =>
      rw [hrv, Option.some_bind] at h
      cases ht : processRows (some v) rest with
      | none =>
        rw [ht, Option.map_none'] at h
        exact Option.noConfusion h
      | some tail =>
        rw [ht, Option.map_some'] at h
        rw [← Option.some.inj h, List.mem_append] at hs
        cases hs with
        | inl hmem =>
          cases prev with
          | none => rw [emitStep_none] at hmem; cases hmem
          | some p =>
            rw [emitStep_some] at hmem
            by_cases hpos : 0 < (v.1 - p.1) / 1000
            · rw [if_pos hpos, List.mem_singleton] at hmem
              exact ⟨p, v, row, Or.inl ⟨row, rfl, rfl, hrv, rfl⟩, hpos, hmem⟩
            · rw [if_neg hpos] at hmem
              cases hmem
        | inr hmem =>
          obtain ⟨p, q, r2, hcase, hpos, hform⟩ := ih (some v) tail ht s hmem
          refine ⟨p, q, r2, ?_, hpos, hform⟩
          cases hcase with
          | inl hl =>
            obtain ⟨r, hp, hr0, hrq, hr2⟩ := hl
            subst hr2
            right
            refine ⟨0, row, rfl, ?_, ?_, hrq⟩
            · rw [List.get?_cons_succ]
              exact hr0
            · rw [← Option.some.inj hp]
              exact hrv
          | inr hr =>
            obtain ⟨i, r1, h1, h2, h3, h4⟩ := hr
            exact Or.inr ⟨i + 1, r1, by rw [List.get?_cons_succ]; exact h1,
              by rw [List.get?_cons_succ]; exact h2, h3, h4⟩

theorem processRows_length_spec (rows : List RawRow) :
    ∀ (prev : Option (ℚ × ℚ)) (samples : List Sample),
      processRows prev rows = some samples →
      ∃ vals, valsOf rows = some vals ∧
        samples.length = pairsPos (match prev with
                                   | none => vals
                                   | some p => p :: vals) := by
  induction rows with
  | nil =>
    intro prev samples h
    rw [processRows] at h
    refine ⟨[], rfl, ?_⟩
    rw [← Option.some.inj h]
    cases prev with
    | none => rfl
    | some p => rfl
  | cons row rest ih =>
    intro prev samples h
    rw [processRows] at h
    cases hrv : rowVals row with
    | none =>
      rw [hrv, Option.none_bind] at h
      exact Option.noConfusion h
    | some v =>
      rw [hrv, Option.some_bind] at h
      cases ht : processRows (some v) rest with
      | none =>
        rw [ht, Option.map_none'] at h
        exact Option.noConfusion h
      | some tail =>
        rw [ht, Option.map_some'] at h
        obtain ⟨vals', hvals', hlen⟩ := ih (some v) tail ht
        refine ⟨v :: vals', by rw [valsOf, hrv, hvals'], ?_⟩
        rw [← Option.some.inj h, List.length_append, hlen]
        cases prev with
        | none =>
          rw [emitStep_none]
          show ([] : List Sample).length + pairsPos (v :: vals') = pairsPos (v :: vals')
          simp
        | some p =>
          rw [emitStep_some]
          show (if 0 < (v.1 - p.1) / 1000 then [mkSample p v row] else []).length
              + pairsPos (v :: vals') = pairsPos (p :: v :: vals')
          have hpp : pairsPos (p :: v :: vals')
              = (if 0 < (v.1 - p.1) / 1000 then 1 else 0) + pairsPos (v :: vals') := rfl
          rw [hpp]
          by_cases hpos : 0 < (v.1 - p.1) / 1000
          · rw [if_pos hpos, if_pos hpos]
            simp
          · rw [if_neg hpos, if_neg hpos]
            simp

/-- **Claim C7 (confirmed).**  Every sample `process_file` emits comes from a
consecutive pair of rows whose parsed time delta is positive, with
`throughput = Δcount / Δtime_seconds`; and the number of emitted samples
equals the number of consecutive row pairs with positive time delta, so pairs
with non-positive delta are skipped and the division is only ever performed
with a positive divisor. -/
theorem C7_throughput_pairs (rows : List RawRow) (samples : List Sample)
    (h : process_file rows = some samples) :
    (∀ s ∈ samples, ∃ (i : ℕ) (r1 r2 : RawRow) (p q : ℚ × ℚ),
        rows.get? i = some r1 ∧ rows.get? (i+1) = some r2 ∧
        rowVals r1 = some p ∧ rowVals r2 = some q ∧
        0 < (q.1 - p.1) / 1000 ∧
        s.throughput = (q.2 - p.2) / ((q.1 - p.1) / 1000)) ∧
    ∃ vals, valsOf rows = some vals ∧ samples.length = pairsPos vals := by
  constructor
  · intro s hs
    obtain ⟨p, q, r2, hcase, hpos, hform⟩ :=
      processRows_mem_spec rows none samples h s hs
    cases hcase with
    | inl hl =>
      obtain ⟨r, hp, _⟩ := hl
      exact Option.noConfusion hp
    | inr hr =>
      obtain ⟨i, r1, h1, h2, h3, h4⟩ := hr
      exact ⟨i, r1, r2, p, q, h1, h2, h3, h4, hpos, by rw [hform]; rfl⟩
  · obtain ⟨vals, hv, hl⟩ := processRows_length_spec rows none samples h
    exact ⟨vals, hv, hl⟩

/-- A flagless raw row with the given numeric cells. -/
def mkRow (t c : String) : RawRow :=
  { elapsed_time_ms := strL t, executed_count := strL c,
    tracking := none, repartitioning := none }

/-- Concrete run of `process_file`: rows at 0 ms, 1040 ms, 1060 ms.  The two
consecutive pairs both have positive delta, so two samples are emitted, with
buckets `round(1.04, 1) = 1.0` and `round(1.06, 1) = 1.1`. -/
theorem process_file_c1rows :
    process_file [mkRow "0" "0", mkRow "1040" "104", mkRow "1060" "106"]
      = some [{ elapsed_s := 1, throughput := 100, tracking := 0, repartitioning := 0 },
              { elapsed_s := 11/10, throughput := 100, tracking := 0, repartitioning := 0 }] := by
  have h0 : rowVals (mkRow "0" "0") = some (0, 0) := rfl
  have hA : rowVals (mkRow "1040" "104") = some (1040, 104) := rfl
  have hB : rowVals (mkRow "1060" "106") = some (1060, 106) := rfl
  have hf : flagActive none = false := rfl
  simp only [process_file, processRows, h0, hA, hB, Option.some_bind, Option.map_some']
  norm_num [emitStep, mkSample, mkRow, hf, timeBucket, pyRound1, roundHalfEven]

/-- Closed witness for `C7_throughput_pairs` at the concrete three-row file. -/
theorem C7_throughput_pairs_witness :
    ∃ vals,
      valsOf [mkRow "0" "0", mkRow "1040" "104", mkRow "1060" "106"] = some vals ∧
      ([({ elapsed_s := 1, throughput := 100, tracking := 0, repartitioning := 0 } : Sample),
        { elapsed_s := 11/10, throughput := 100, tracking := 0, repartitioning := 0 }]).length
        = pairsPos vals :=
  (C7_throughput_pairs _ _ process_file_c1rows).2

/-- **Claim C1, amended.**  The time bucket of every emitted sample is the
row's elapsed milliseconds divided by 1000 and rounded (half-to-even) to one
decimal place; a sample at elapsed seconds 1.04 maps to bucket 1.0, but a
sample at 1.06 maps to bucket 1.1, *not* 1.0 as the original claim's example
says (see `C1_counterexample`). -/
theorem C1_time_buckets :
    (∀ (rows : List RawRow) (samples : List Sample),
      process_file rows = some samples →
      ∀ s ∈ samples, ∃ (i : ℕ) (r2 : RawRow) (q : ℚ × ℚ),
        rows.get? (i+1) = some r2 ∧ rowVals r2 = some q ∧
        s.elapsed_s = timeBucket q.1) ∧
    timeBucket 1040 = 1 ∧ timeBucket 1060 = 11/10 := by
  refine ⟨?_, ?_, ?_⟩
  · intro rows samples h s hs
    obtain ⟨p, q, r2, hcase, _, hform⟩ :=
      processRows_mem_spec rows none samples h s hs
    cases hcase with
    | inl hl =>
      obtain ⟨r, hp, _⟩ := hl
      exact Option.noConfusion hp
    | inr hr =>
      obtain ⟨i, r1, _, h2, _, h4⟩ := hr
      exact ⟨i, r2, q, h2, h4, by rw [hform]; rfl⟩
  · norm_num [timeBucket, pyRound1, roundHalfEven]
  · norm_num [timeBucket, pyRound1, roundHalfEven]

/-- Closed witness for `C1_time_buckets`, applying its general clause to the
first sample of the concrete three-row file. -/
theorem C1_time_buckets_witness :
    ∃ (i : ℕ) (r2 : RawRow) (q : ℚ × ℚ),
      ([mkRow "0" "0", mkRow "1040" "104", mkRow "1060" "106"] : List RawRow).get? (i+1)
          = some r2 ∧
      rowVals r2 = some q ∧ (1 : ℚ) = timeBucket q.1 :=
  C1_time_buckets.1 [mkRow "0" "0", mkRow "1040" "104", mkRow "1060" "106"] _
    process_file_c1rows
    { elapsed_s := 1, throughput := 100, tracking := 0, repartitioning := 0 }
    (List.mem_cons_self _ _)

/-- **Counterexample to claim C1 as stated.**  Two samples of the same file
at elapsed seconds 1.04 and 1.06 (rows at 1040 ms and 1060 ms): the first is
bucketed at 1.0 but the second at 1.1, so they do *not* both map to bucket
1.0. -/
theorem C1_counterexample :
    process_file [mkRow "0" "0", mkRow "1040" "104", mkRow "1060" "106"]
      = some [{ elapsed_s := 1, throughput := 100, tracking := 0, repartitioning := 0 },
              { elapsed_s := 11/10, throughput := 100, tracking := 0, repartitioning := 0 }]
    ∧ (11/10 : ℚ) ≠ 1 :=
  ⟨process_file_c1rows, by norm_num⟩

/-! ## Association-list lemmas -/

theorem alookup_appendAt {κ α : Type} [DecidableEq κ]
    (acc : List (κ × List α)) (k : κ) (a : α) (k' : κ) :
    alookup (appendAt acc k a) k' =
      if k' = k then some ((alookup acc k).getD [] ++ [a]) else alookup acc k' := by
  induction acc with
  | nil =>
    by_cases h : k' = k
    · subst h; simp [appendAt, alookup]
    · have h' : ¬k = k' := fun hh => h hh.symm
      simp [appendAt, alookup, h, h']
  | cons kb rest ih =>
    obtain ⟨k2, l⟩ := kb
    by_cases h2 : k2 = k
    · subst h2
      rw [appendAt, if_pos rfl]
      by_cases h : k' = k2
      · subst h; simp [alookup]
      · have h' : ¬k2 = k' := fun hh => h hh.symm
        simp [alookup, h, h']
    · rw [appendAt, if_neg h2]
      by_cases h : k' = k
      · subst h
        simp only [alookup, ih, if_pos rfl, if_neg h2]
      · by_cases h3 : k2 = k'
        · subst h3
          simp [alookup, h]
        · simp [alookup, h3, ih, h]

theorem alookup_extendAt {κ α : Type} [DecidableEq κ]
    (acc : List (κ × List α)) (k : κ) (new : List α) (k' : κ) :
    alookup (extendAt acc k new) k' =
      if k' = k then some ((alookup acc k).getD [] ++ new) else alookup acc k' := by
  induction acc with
  | nil =>
    by_cases h : k' = k
    · subst h; simp [extendAt, alookup]
    · have h' : ¬k = k' := fun hh => h hh.symm
      simp [extendAt, alookup, h, h']
  | cons kb rest ih =>
    obtain ⟨k2, l⟩ := kb
    by_cases h2 : k2 = k
    · subst h2
      rw [extendAt, if_pos rfl]
      by_cases h : k' = k2
      · subst h; simp [alookup]
      · have h' : ¬k2 = k' := fun hh => h hh.symm
        simp [alookup, h, h']
    · rw [extendAt, if_neg h2]
      by_cases h : k' = k
      · subst h
        simp only [alookup, ih, if_pos rfl, if_neg h2]
      · by_cases h3 : k2 = k'
        · subst h3
          simp [alookup, h]
        · simp [alookup, h3, ih, h]

theorem alookup_insertIfAbsent {κ β : Type} [DecidableEq κ]
    (acc : List (κ × β)) (k : κ) (b : β) (k' : κ) :
    alookup (insertIfAbsent acc k b) k' =
      if k' = k then some ((alookup acc k).getD b) else alookup acc k' := by
  induction acc with
  | nil =>
    by_cases h : k' = k
    · subst h; simp [insertIfAbsent, alookup]
    · have h' : ¬k = k' := fun hh => h hh.symm
      simp [insertIfAbsent, alookup, h, h']
  | cons kb rest ih =>
    obtain ⟨k2, b2⟩ := kb
    by_cases h2 : k2 = k
    · subst h2
      rw [insertIfAbsent, if_pos rfl]
      by_cases h : k' = k2
      · subst h; simp [alookup]
      · have h' : ¬k2 = k' := fun hh => h hh.symm
        simp [alookup, h, h']
    · rw [insertIfAbsent, if_neg h2]
      by_cases h : k' = k
      · subst h
        simp only [alookup, ih, if_pos rfl, if_neg h2]
      · by_cases h3 : k2 = k'
        · subst h3
          simp [alookup, h]
        · simp [alookup, h3, ih, h]

theorem alookup_of_mem_fst {κ β : Type} [DecidableEq κ]
    (acc : List (κ × β)) (k : κ) (h : k ∈ acc.map Prod.fst) :
    ∃ b, alookup acc k = some b := by
  induction acc with
  | nil => cases h
  | cons kb rest ih =>
    obtain ⟨k2, b2⟩ := kb
    by_cases h2 : k2 = k
    · exact ⟨b2, by rw [alookup, if_pos h2]⟩
    · rw [List.map_cons, List.mem_cons] at h
      rcases h with h | h
      · exact absurd h.symm h2
      · obtain ⟨b, hb⟩ := ih h
        exact ⟨b, by rw [alookup, if_neg h2]; exact hb⟩

/-! ## Flag probabilities of the time-series aggregation (claim C2) -/

/-- What holds of every entry stored at bucket `t` of a `time_points` dict:
it is a sample of that bucket and its flag indicators are 0-or-1. -/
def entryOK (t : ℚ) (e : Sample) : Prop :=
  e.elapsed_s = t ∧ (e.tracking = 0 ∨ e.tracking = 1)
    ∧ (e.repartitioning = 0 ∨ e.repartitioning = 1)

/-- Invariant of a `time_points` association list. -/
def timePointsOK (acc : List (ℚ × List Sample)) : Prop :=
  ∀ t entries, alookup acc t = some entries →
    entries ≠ [] ∧ ∀ e ∈ entries, entryOK t e

theorem timePointsOK_appendAt {acc : List (ℚ × List Sample)}
    (hacc : timePointsOK acc) {k : ℚ} {a : Sample} (ha : entryOK k a) :
    timePointsOK (appendAt acc k a) := by
  intro t entries h
  rw [alookup_appendAt] at h
  by_cases ht : t = k
  · rw [if_pos ht] at h
    rw [← Option.some.inj h]
    subst ht
    constructor
    · simp
    · intro e he
      rw [List.mem_append, List.mem_singleton] at he
      rcases he with he | he
      · cases hl : alookup acc t with
        | none => rw [hl] at he; cases he
        | some l =>
          rw [hl] at he
          exact ((hacc t l hl).2 e he)
      · rw [he]; exact ha
  · rw [if_neg ht] at h
    exact hacc t entries h

/-- Every sample `process_file` returns has 0-or-1 flag indicators and is
keyed by its own bucket. -/
theorem process_file_entryOK {rows : List RawRow} {data : List Sample}
    (h : process_file rows = some data) :
    ∀ e ∈ data, entryOK e.elapsed_s e := by
  intro e he
  obtain ⟨p, q, r2, _, _, hform⟩ :=
    processRows_mem_spec rows none data h e he
  subst hform
  refine ⟨rfl, ?_, ?_⟩
  · by_cases hf : flagActive r2.tracking
    · right; rw [mkSample]; simp [hf]
    · left; rw [mkSample]; simp [hf]
  · by_cases hf : flagActive r2.repartitioning
    · right; rw [mkSample]; simp [hf]
    · left; rw [mkSample]; simp [hf]

theorem timePointsOK_sample_fold {data : List Sample}
    (hdata : ∀ e ∈ data, entryOK e.elapsed_s e) :
    ∀ acc : List (ℚ × List Sample), timePointsOK acc →
      timePointsOK (data.foldl (fun acc2 e => appendAt acc2 e.elapsed_s e) acc) := by
  induction data with
  | nil => intro acc hacc; exact hacc
  | cons e rest ih =>
    intro acc hacc
    rw [List.foldl_cons]
    exact ih (fun x hx => hdata x (List.mem_cons_of_mem e hx))
      _ (timePointsOK_appendAt hacc (hdata e (List.mem_cons_self e rest)))

theorem timePointsOf_ok (group : List (List RawRow × RunId)) :
    timePointsOK (timePointsOf group) := by
  rw [timePointsOf]
  have hgen : ∀ (g : List (List RawRow × RunId)) (acc : List (ℚ × List Sample)),
      timePointsOK acc →
      timePointsOK (g.foldl
        (fun acc fp =>
          match process_file fp.1 with
          | none => acc
          | some data =>
            if data.isEmpty then acc
            else data.foldl (fun acc2 e => appendAt acc2 e.elapsed_s e) acc)
        acc) := by
    intro g
    induction g with
    | nil => intro acc hacc; exact hacc
    | cons fp grest ih =>
      intro acc hacc
      rw [List.foldl_cons]
      apply ih
      cases hpf : process_file fp.1 with
      | none => simp only [hpf]; exact hacc
      | some data =>
        simp only [hpf]
        by_cases hde : data.isEmpty
        · rw [if_pos hde]; exact hacc
        · rw [if_neg hde]
          exact timePointsOK_sample_fold (process_file_entryOK hpf) acc hacc
  exact hgen group [] (fun t entries h => absurd h (by rw [alookup]; simp))

/-- Every row of `aggRowsOf` is `mkAggRow` of one bucket's entries. -/
theorem mem_aggRowsOf {group : List (List RawRow × RunId)} {params : RunId}
    {row : AggRow} (h : row ∈ aggRowsOf group params) :
    ∃ t entries, alookup (timePointsOf group) t = some entries ∧
      entries ≠ [] ∧ (∀ e ∈ entries, entryOK t e) ∧
      row = mkAggRow t entries params := by
  rw [aggRowsOf, List.mem_map] at h
  obtain ⟨t, ht, hrow⟩ := h
  rw [List.mem_insertionSort] at ht
  obtain ⟨entries, hl⟩ := alookup_of_mem_fst _ t ht
  obtain ⟨hne, hok⟩ := timePointsOf_ok group t entries hl
  refine ⟨t, entries, hl, hne, hok, ?_⟩
  rw [← hrow, hl]
  rfl

/-- Invariant of the `chart_data` association list: every stored row is an
aggregated row of some configuration group. -/
def chartDataOK (acc : List (Str × List AggRow)) : Prop :=
  ∀ ck rows, alookup acc ck = some rows →
    ∀ row ∈ rows, ∃ (group : List (List RawRow × RunId)) (params : RunId),
      row ∈ aggRowsOf group params

theorem chartDataOK_extendAt {acc : List (Str × List AggRow)}
    (hacc : chartDataOK acc) {k : Str} {new : List AggRow}
    (hnew : ∀ row ∈ new, ∃ (group : List (List RawRow × RunId)) (params : RunId),
      row ∈ aggRowsOf group params) :
    chartDataOK (extendAt acc k new) := by
  intro ck rows h row hrow
  rw [alookup_extendAt] at h
  by_cases hck : ck = k
  · rw [if_pos hck] at h
    rw [← Option.some.inj h, List.mem_append] at hrow
    rcases hrow with hrow | hrow
    · cases hl : alookup acc k with
      | none => rw [hl] at hrow; cases hrow
      | some l =>
        rw [hl] at hrow
        exact hacc k l hl row hrow
    · exact hnew row hrow
  · rw [if_neg hck] at h
    exact hacc ck rows h row hrow

theorem tsChartData_ok (files : List (Str × List RawRow)) :
    chartDataOK (tsChartData files) := by
  rw [tsChartData]
  have hgen : ∀ (gs : List (Str × List (List RawRow × RunId)))
      (acc : List (Str × List AggRow)), chartDataOK acc →
      chartDataOK (gs.foldl
        (fun acc kg =>
          match kg.2 with
          | [] => acc
          | (_, params) :: _ =>
            if (timePointsOf kg.2).isEmpty then acc
            else extendAt acc params.chart_key (aggRowsOf kg.2 params))
        acc) := by
    intro gs
    induction gs with
    | nil => intro acc hacc; exact hacc
    | cons kg rest ih =>
      intro acc hacc
      rw [List.foldl_cons]
      apply ih
      cases hkg : kg.2 with
      | nil => simp only [hkg]; exact hacc
      | cons fp grest =>
        obtain ⟨frows, params⟩ := fp
        simp only [hkg]
        by_cases hde : (timePointsOf kg.2).isEmpty
        · rw [hkg] at hde
          rw [if_pos hde]
          exact hacc
        · rw [hkg] at hde
          rw [if_neg hde]
          exact chartDataOK_extendAt hacc
            (fun row hrow => ⟨kg.2, params, by rw [hkg]; exact hrow⟩)
  exact hgen _ [] (fun ck rows h => absurd h (by rw [alookup]; simp))

theorem sum_map_eq_countP {α : Type} (f : α → ℕ) (l : List α)
    (h : ∀ e ∈ l, f e = 0 ∨ f e = 1) :
    (l.map fun e => (f e : ℚ)).sum = (l.countP (fun e => f e = 1) : ℚ) := by
  induction l with
  | nil => simp
  | cons e rest ih =>
    rw [List.map_cons, List.sum_cons, List.countP_cons,
      ih (fun x hx => h x (List.mem_cons_of_mem e hx))]
    rcases h e (List.mem_cons_self e rest) with h0 | h1
    · simp [h0]
    · simp only [h1]
      norm_num
      ring

/-- The flag columns of an aggregated row are the fraction of the bucket's
samples with the flag set. -/
theorem mkAggRow_prob (t : ℚ) (entries : List Sample) (params : RunId)
    (hok : ∀ e ∈ entries, entryOK t e) :
    (mkAggRow t entries params).tracking_prob
      = (entries.countP (fun e => e.tracking = 1) : ℚ) / entries.length ∧
    (mkAggRow t entries params).repartitioning_prob
      = (entries.countP (fun e => e.repartitioning = 1) : ℚ) / entries.length := by
  constructor
  · show (entries.map fun e => ((e.tracking : ℚ))).sum / (entries.length : ℚ) = _
    rw [sum_map_eq_countP (fun e => e.tracking) entries (fun e he => (hok e he).2.1)]
  · show (entries.map fun e => ((e.repartitioning : ℚ))).sum / (entries.length : ℚ) = _
    rw [sum_map_eq_countP (fun e => e.repartitioning) entries (fun e he => (hok e he).2.2)]

/-- A raw row at 1000 ms / count 100 with the given `Tracking` cell. -/
def c2flagRow (flag : String) : RawRow :=
  { elapsed_time_ms := strL "1000", executed_count := strL "100",
    tracking := some (strL flag), repartitioning := none }

theorem process_file_flag_x :
    process_file [mkRow "0" "0", c2flagRow "x"]
      = some [{ elapsed_s := 1, throughput := 100, tracking := 1,
                repartitioning := 0 }] := by
  have h1 : rowVals (mkRow "0" "0") = some (0, 0) := rfl
  have h2 : rowVals (c2flagRow "x") = some (1000, 100) := rfl
  have h4 : flagActive (some (strL "x")) = true := rfl
  have h6 : flagActive none = false := rfl
  simp only [process_file, processRows, h1, h2, Option.some_bind, Option.map_some']
  norm_num [emitStep, mkSample, mkRow, c2flagRow, h4, h6,
    timeBucket, pyRound1, roundHalfEven]

theorem process_file_flag_blank :
    process_file [mkRow "0" "0", c2flagRow ""]
      = some [{ elapsed_s := 1, throughput := 100, tracking := 0,
                repartitioning := 0 }] := by
  have h1 : rowVals (mkRow "0" "0") = some (0, 0) := rfl
  have h2 : rowVals (c2flagRow "") = some (1000, 100) := rfl
  have h4 : flagActive (some (strL "")) = false := rfl
  have h6 : flagActive none = false := rfl
  simp only [process_file, processRows, h1, h2, Option.some_bind, Option.map_some']
  norm_num [emitStep, mkSample, mkRow, c2flagRow, h4, h6,
    timeBucket, pyRound1, roundHalfEven]

/-- Four repetitions of one configuration: reps 1 and 2 have `Tracking = "x"`
at the 1.0 s bucket, reps 3 and 4 do not. -/
def c2files : List (Str × List RawRow) :=
  [ (strL "w__1__t__1__e__1__0(1).csv", [mkRow "0" "0", c2flagRow "x"]),
    (strL "w__1__t__1__e__1__0(2).csv", [mkRow "0" "0", c2flagRow "x"]),
    (strL "w__1__t__1__e__1__0(3).csv", [mkRow "0" "0", c2flagRow ""]),
    (strL "w__1__t__1__e__1__0(4).csv", [mkRow "0" "0", c2flagRow ""]) ]

/-- The parse result of `w__1__t__1__e__1__0(<rep>).csv`. -/
def c2params (rep : ℕ) : RunId :=
  { workload := strL "w", workers := 1, storage_type := strL "t", partitions := 1,
    storage_engine := strL "e", paths := 1, interval := 0, rep := rep,
    key := strL "w__1__t__1__e__1__0", chart_key := strL "w__e__1" }

theorem c2groups_eq :
    tsGroups c2files = [(strL "w__1__t__1__e__1__0",
      [([mkRow "0" "0", c2flagRow "x"], c2params 1),
       ([mkRow "0" "0", c2flagRow "x"], c2params 2),
       ([mkRow "0" "0", c2flagRow ""], c2params 3),
       ([mkRow "0" "0", c2flagRow ""], c2params 4)])] := by decide

theorem c2timePoints :
    timePointsOf
      [([mkRow "0" "0", c2flagRow "x"], c2params 1),
       ([mkRow "0" "0", c2flagRow "x"], c2params 2),
       ([mkRow "0" "0", c2flagRow ""], c2params 3),
       ([mkRow "0" "0", c2flagRow ""], c2params 4)]
      = [(1, [{ elapsed_s := 1, throughput := 100, tracking := 1, repartitioning := 0 },
              { elapsed_s := 1, throughput := 100, tracking := 1, repartitioning := 0 },
              { elapsed_s := 1, throughput := 100, tracking := 0, repartitioning := 0 },
              { elapsed_s := 1, throughput := 100, tracking := 0, repartitioning := 0 }])] := by
  simp only [timePointsOf, List.foldl_cons, List.foldl_nil,
    process_file_flag_x, process_file_flag_blank]
  norm_num [appendAt, List.isEmpty_cons, List.foldl_cons, List.foldl_nil]

theorem c2aggRows :
    aggRowsOf
      [([mkRow "0" "0", c2flagRow "x"], c2params 1),
       ([mkRow "0" "0", c2flagRow "x"], c2params 2),
       ([mkRow "0" "0", c2flagRow ""], c2params 3),
       ([mkRow "0" "0", c2flagRow ""], c2params 4)] (c2params 1)
      = [mkAggRow 1
          [{ elapsed_s := 1, throughput := 100, tracking := 1, repartitioning := 0 },
           { elapsed_s := 1, throughput := 100, tracking := 1, repartitioning := 0 },
           { elapsed_s := 1, throughput := 100, tracking := 0, repartitioning := 0 },
           { elapsed_s := 1, throughput := 100, tracking := 0, repartitioning := 0 }]
          (c2params 1)] := by
  simp only [aggRowsOf, c2timePoints, List.map_cons, List.map_nil]
  simp [alookup]

theorem c2chartData :
    tsChartData c2files = [(strL "w__e__1",
      [mkAggRow 1
        [{ elapsed_s := 1, throughput := 100, tracking := 1, repartitioning := 0 },
         { elapsed_s := 1, throughput := 100, tracking := 1, repartitioning := 0 },
         { elapsed_s := 1, throughput := 100, tracking := 0, repartitioning := 0 },
         { elapsed_s := 1, throughput := 100, tracking := 0, repartitioning := 0 }]
        (c2params 1)])] := by
  rw [tsChartData, c2groups_eq, List.foldl_cons, List.foldl_nil]
  simp only [c2timePoints, c2aggRows, List.isEmpty_cons, extendAt]
  norm_num [c2params]

/-- **Claim C2, amended.**  For every time bucket of every emitted chart row,
`tracking_prob` (and `repartitioning_prob`) is the fraction of *samples*
recorded at that bucket whose flag is active — one sample per consecutive row
pair of a repetition, so a repetition may contribute several samples to one
bucket (see `C2_counterexample`); when each of 4 repetitions contributes
exactly one sample and 2 of them show `Tracking = "x"`, the emitted
`tracking_prob` is 1/2. -/
theorem C2_flag_probability :
    (∀ (files : List (Str × List RawRow)) (ck : Str) (row : AggRow),
      row ∈ tsRows files ck →
      ∃ (group : List (List RawRow × RunId)) (params : RunId)
        (t : ℚ) (entries : List Sample),
        alookup (timePointsOf group) t = some entries ∧ entries ≠ [] ∧
        row = mkAggRow t entries params ∧
        row.tracking_prob
          = (entries.countP (fun e => e.tracking = 1) : ℚ) / entries.length ∧
        row.repartitioning_prob
          = (entries.countP (fun e => e.repartitioning = 1) : ℚ) / entries.length)
    ∧ ∃ row : AggRow, tsRows c2files (strL "w__e__1") = [row]
        ∧ row.tracking_prob = 1/2 := by
  constructor
  · intro files ck row hrow
    rw [tsRows] at hrow
    cases hcd : alookup (tsChartData files) ck with
    | none => rw [hcd] at hrow; cases hrow
    | some rows =>
      rw [hcd] at hrow
      obtain ⟨group, params, hmem⟩ := tsChartData_ok files ck rows hcd row hrow
      obtain ⟨t, entries, hl, hne, hok, hform⟩ := mem_aggRowsOf hmem
      obtain ⟨hpt, hpr⟩ := mkAggRow_prob t entries params hok
      exact ⟨group, params, t, entries, hl, hne, hform,
        by rw [hform]; exact hpt, by rw [hform]; exact hpr⟩
  · refine ⟨mkAggRow 1
      [{ elapsed_s := 1, throughput := 100, tracking := 1, repartitioning := 0 },
       { elapsed_s := 1, throughput := 100, tracking := 1, repartitioning := 0 },
       { elapsed_s := 1, throughput := 100, tracking := 0, repartitioning := 0 },
       { elapsed_s := 1, throughput := 100, tracking := 0, repartitioning := 0 }]
      (c2params 1), ?_, ?_⟩
    · rw [tsRows, c2chartData]
      simp [alookup]
    · norm_num [mkAggRow]

/-- Closed witness for `C2_flag_probability`: its general clause applied to
the one row the four-repetition input emits. -/
theorem C2_flag_probability_witness :
    ∃ row : AggRow, row ∈ tsRows c2files (strL "w__e__1") ∧
      ∃ (group : List (List RawRow × RunId)) (params : RunId)
        (t : ℚ) (entries : List Sample),
        alookup (timePointsOf group) t = some entries ∧ entries ≠ [] ∧
        row = mkAggRow t entries params ∧
        row.tracking_prob
          = (entries.countP (fun e => e.tracking = 1) : ℚ) / entries.length ∧
        row.repartitioning_prob
          = (entries.countP (fun e => e.repartitioning = 1) : ℚ) / entries.length := by
  obtain ⟨row, hrow, _⟩ := C2_flag_probability.2
  have hmem : row ∈ tsRows c2files (strL "w__e__1") := by
    rw [hrow]
    exact List.mem_singleton.mpr rfl
  exact ⟨row, hmem, C2_flag_probability.1 c2files (strL "w__e__1") row hmem⟩

/-- One repetition whose consecutive pairs at 1000 ms and 1040 ms both land
in bucket 1.0, with the flag active at the first sample only. -/
def c2single : List (Str × List RawRow) :=
  [ (strL "w__1__t__1__e__1__0(1).csv",
     [mkRow "0" "0", c2flagRow "x",
      { elapsed_time_ms := strL "1040", executed_count := strL "104",
        tracking := some (strL ""), repartitioning := none }]) ]

theorem process_file_c2single :
    process_file [mkRow "0" "0", c2flagRow "x",
      { elapsed_time_ms := strL "1040", executed_count := strL "104",
        tracking := some (strL ""), repartitioning := none }]
      = some [{ elapsed_s := 1, throughput := 100, tracking := 1, repartitioning := 0 },
              { elapsed_s := 1, throughput := 100, tracking := 0, repartitioning := 0 }] := by
  have h1 : rowVals (mkRow "0" "0") = some (0, 0) := rfl
  have h2 : rowVals (c2flagRow "x") = some (1000, 100) := rfl
  have h3 : rowVals { elapsed_time_ms := strL "1040", executed_count := strL "104",
                      tracking := some (strL ""), repartitioning := none }
      = some (1040, 104) := rfl
  have h4 : flagActive (some (strL "x")) = true := rfl
  have h5 : flagActive (some (strL "")) = false := rfl
  have h6 : flagActive none = false := rfl
  simp only [process_file, processRows, h1, h2, h3, Option.some_bind, Option.map_some']
  norm_num [emitStep, mkSample, mkRow, c2flagRow, h4, h5, h6,
    timeBucket, pyRound1, roundHalfEven]

theorem c2singleGroups :
    tsGroups c2single = [(strL "w__1__t__1__e__1__0",
      [([mkRow "0" "0", c2flagRow "x",
         { elapsed_time_ms := strL "1040", executed_count := strL "104",
           tracking := some (strL ""), repartitioning := none }], c2params 1)])] := by
  decide

theorem c2singleTimePoints :
    timePointsOf
      [([mkRow "0" "0", c2flagRow "x",
         { elapsed_time_ms := strL "1040", executed_count := strL "104",
           tracking := some (strL ""), repartitioning := none }], c2params 1)]
      = [(1, [{ elapsed_s := 1, throughput := 100, tracking := 1, repartitioning := 0 },
              { elapsed_s := 1, throughput := 100, tracking := 0, repartitioning := 0 }])] := by
  simp only [timePointsOf, List.foldl_cons, List.foldl_nil, process_file_c2single]
  norm_num [appendAt, List.isEmpty_cons, List.foldl_cons, List.foldl_nil]

theorem c2singleAggRows :
    aggRowsOf
      [([mkRow "0" "0", c2flagRow "x",
         { elapsed_time_ms := strL "1040", executed_count := strL "104",
           tracking := some (strL ""), repartitioning := none }], c2params 1)] (c2params 1)
      = [mkAggRow 1
          [{ elapsed_s := 1, throughput := 100, tracking := 1, repartitioning := 0 },
           { elapsed_s := 1, throughput := 100, tracking := 0, repartitioning := 0 }]
          (c2params 1)] := by
  simp only [aggRowsOf, c2singleTimePoints, List.map_cons, List.map_nil]
  simp [alookup]

theorem c2singleChartData :
    tsChartData c2single = [(strL "w__e__1",
      [mkAggRow 1
        [{ elapsed_s := 1, throughput := 100, tracking := 1, repartitioning := 0 },
         { elapsed_s := 1, throughput := 100, tracking := 0, repartitioning := 0 }]
        (c2params 1)])] := by
  rw [tsChartData, c2singleGroups, List.foldl_cons, List.foldl_nil]
  simp only [c2singleTimePoints, c2singleAggRows, List.isEmpty_cons, extendAt]
  norm_num [c2params]

/-- **Counterexample to claim C2 as stated.**  A configuration with exactly
*one* repetition: its two consecutive row pairs (at 1000 ms and 1040 ms) both
land in time bucket 1.0, with `Tracking = "x"` on the first only.  The
emitted `tracking_prob` is 1/2 — but with a single repetition, "the fraction
of repetitions with the flag active at that bucket" can only be 0 or 1.  The
emitted number is the fraction of *samples*, not of repetitions. -/
theorem C2_counterexample :
    ∃ row : AggRow, tsRows c2single (strL "w__e__1") = [row]
      ∧ (tsGroups c2single).map (fun kg => kg.2.length) = [1]
      ∧ row.tracking_prob = 1/2
      ∧ (1/2 : ℚ) ≠ 0 ∧ (1/2 : ℚ) ≠ 1 := by
  refine ⟨mkAggRow 1
      [{ elapsed_s := 1, throughput := 100, tracking := 1, repartitioning := 0 },
       { elapsed_s := 1, throughput := 100, tracking := 0, repartitioning := 0 }]
      (c2params 1), ?_, ?_, ?_, by norm_num, by norm_num⟩
  · rw [tsRows, c2singleChartData]
    simp [alookup]
  · rw [c2singleGroups]
    rfl
  · norm_num [mkAggRow]

/-! ## Summary output ordering (claim C8) -/

/-- Sortedness of the two summary writers, shared by claims C8 and C9. -/
theorem sorted_summary_rows (files : List (Str × List Str)) (g : Str) :
    List.Sorted rowLE (throughputRows files g)
    ∧ List.Sorted rowLE (makespanRows files g) := by
  constructor
  · rw [throughputRows]
    cases alookup (groupedSum files fun m => m.ops_per_second) g with
    | none => exact List.sorted_nil
    | some data_list => exact List.sorted_insertionSort rowLE data_list
  · rw [makespanRows]
    cases alookup (groupedSum files fun m => m.makespan_s) g with
    | none => exact List.sorted_nil
    | some data_list => exact List.sorted_insertionSort rowLE data_list

/-- **Claim C8 (confirmed).**  Within every output CSV of the summary script
(both the throughput and the makespan family), the data rows are sorted
ascending by the lexicographic triple `(workers, storage_type, partitions)`
(`rowLE` is exactly that order, with Python's string comparison on
`storage_type`). -/
theorem C8_output_sorted (files : List (Str × List Str)) (g : Str) :
    List.Sorted (fun a b => sortTriple a ≤ sortTriple b) (throughputRows files g)
    ∧ List.Sorted (fun a b => sortTriple a ≤ sortTriple b) (makespanRows files g) :=
  sorted_summary_rows files g

/-! ## Characterizing the summary fold (claims C6, C9, C10) -/

/-- The successful `(params, metrics)` iterations over an arbitrary file
list (before the listing filter); `successRuns files = runsOf (files.filter …)`. -/
def runsOf (L : List (Str × List Str)) : List (RunId × Metrics) :=
  L.filterMap fun fc =>
    match parse_filename fc.1 with
    | none => none
    | some params => (calculate_metrics fc.2).map fun m => (params, m)

theorem successRuns_eq_runsOf (files : List (Str × List Str)) :
    successRuns files = runsOf (files.filter fun fc => keepFile fc.1) := rfl

theorem foldl_summaryStep_results (L : List (Str × List Str)) :
    ∀ (res : List (Str × List Metrics)) (md : List (Str × RunId)) (k : Str),
      (alookup ((L.foldl summaryStep (res, md)).1) k).getD []
        = (alookup res k).getD []
          ++ ((runsOf L).filter fun pm => pm.1.key = k).map (fun pm => pm.2) := by
  induction L with
  | nil => intro res md k; simp [runsOf]
  | cons fc rest ih =>
    intro res md k
    rw [List.foldl_cons]
    cases hp : parse_filename fc.1 with
    | none =>
      have hstep : summaryStep (res, md) fc = (res, md) := by
        simp only [summaryStep, hp]
      have hruns : runsOf (fc :: rest) = runsOf rest := by
        simp only [runsOf, List.filterMap_cons, hp]
      rw [hstep, hruns, ih]
    | some params =>
      cases hm : calculate_metrics fc.2 with
      | none =>
        have hstep : summaryStep (res, md) fc = (res, md) := by
          simp only [summaryStep, hp, hm]
        have hruns : runsOf (fc :: rest) = runsOf rest := by
          simp only [runsOf, List.filterMap_cons, hp, hm, Option.map_none']
        rw [hstep, hruns, ih]
      | some m =>
        have hstep : summaryStep (res, md) fc
            = (appendAt res params.key m, insertIfAbsent md params.key params) := by
          simp only [summaryStep, hp, hm, Option.map_some']
        have hruns : runsOf (fc :: rest) = (params, m) :: runsOf rest := by
          simp only [runsOf, List.filterMap_cons, hp, hm, Option.map_some']
        rw [hstep, hruns, ih, alookup_appendAt]
        by_cases hk : k = params.key
        · subst hk
          rw [if_pos rfl, List.filter_cons, if_pos (by simp)]
          simp [List.append_assoc]
        · rw [if_neg hk, List.filter_cons,
            if_neg (by simp; exact fun hh => hk hh.symm)]

theorem foldl_summaryStep_results_none (L : List (Str × List Str)) :
    ∀ (res : List (Str × List Metrics)) (md : List (Str × RunId)) (k : Str),
      alookup ((L.foldl summaryStep (res, md)).1) k = none ↔
        alookup res k = none ∧ ((runsOf L).filter fun pm => pm.1.key = k) = [] := by
  induction L with
  | nil => intro res md k; simp [runsOf]
  | cons fc rest ih =>
    intro res md k
    rw [List.foldl_cons]
    cases hp : parse_filename fc.1 with
    | none =>
      have hstep : summaryStep (res, md) fc = (res, md) := by
        simp only [summaryStep, hp]
      have hruns : runsOf (fc :: rest) = runsOf rest := by
        simp only [runsOf, List.filterMap_cons, hp]
      rw [hstep, hruns, ih]
    | some params =>
      cases hm : calculate_metrics fc.2 with
      | none =>
        have hstep : summaryStep (res, md) fc = (res, md) := by
          simp only [summaryStep, hp, hm]
        have hruns : runsOf (fc :: rest) = runsOf rest := by
          simp only [runsOf, List.filterMap_cons, hp, hm, Option.map_none']
        rw [hstep, hruns, ih]
      | some m =>
        have hstep : summaryStep (res, md) fc
            = (appendAt res params.key m, insertIfAbsent md params.key params) := by
          simp only [summaryStep, hp, hm, Option.map_some']
        have hruns : runsOf (fc :: rest) = (params, m) :: runsOf rest := by
          simp only [runsOf, List.filterMap_cons, hp, hm, Option.map_some']
        rw [hstep, hruns, ih, alookup_appendAt]
        by_cases hk : k = params.key
        · subst hk
          rw [if_pos rfl, List.filter_cons, if_pos (by simp)]
          simp
        · rw [if_neg hk, List.filter_cons,
            if_neg (by simp; exact fun hh => hk hh.symm)]

theorem foldl_summaryStep_metadata_some (L : List (Str × List Str)) :
    ∀ (res : List (Str × List Metrics)) (md : List (Str × RunId)) (k : Str)
      (p : RunId), alookup md k = some p →
      alookup ((L.foldl summaryStep (res, md)).2) k = some p := by
  induction L with
  | nil => intro res md k p h; exact h
  | cons fc rest ih =>
    intro res md k p h
    rw [List.foldl_cons]
    cases hp : parse_filename fc.1 with
    | none =>
      have hstep : summaryStep (res, md) fc = (res, md) := by
        simp only [summaryStep, hp]
      rw [hstep]
      exact ih res md k p h
    | some params =>
      cases hm : calculate_metrics fc.2 with
      | none =>
        have hstep : summaryStep (res, md) fc = (res, md) := by
          simp only [summaryStep, hp, hm]
        rw [hstep]
        exact ih res md k p h
      | some m =>
        have hstep : summaryStep (res, md) fc
            = (appendAt res params.key m, insertIfAbsent md params.key params) := by
          simp only [summaryStep, hp, hm, Option.map_some']
        rw [hstep]
        apply ih
        rw [alookup_insertIfAbsent]
        by_cases hk : k = params.key
        · subst hk
          rw [if_pos rfl, h]
          rfl
        · rw [if_neg hk]
          exact h

theorem foldl_summaryStep_metadata_none (L : List (Str × List Str)) :
    ∀ (res : List (Str × List Metrics)) (md : List (Str × RunId)) (k : Str),
      alookup md k = none →
      alookup ((L.foldl summaryStep (res, md)).2) k
        = ((runsOf L).find? fun pm => pm.1.key = k).map (fun pm => pm.1) := by
  induction L with
  | nil => intro res md k h; simp [runsOf, h]
  | cons fc rest ih =>
    intro res md k h
    rw [List.foldl_cons]
    cases hp : parse_filename fc.1 with
    | none =>
      have hstep : summaryStep (res, md) fc = (res, md) := by
        simp only [summaryStep, hp]
      have hruns : runsOf (fc :: rest) = runsOf rest := by
        simp only [runsOf, List.filterMap_cons, hp]
      rw [hstep, hruns]
      exact ih res md k h
    | some params =>
      cases hm : calculate_metrics fc.2 with
      | none =>
        have hstep : summaryStep (res, md) fc = (res, md) := by
          simp only [summaryStep, hp, hm]
        have hruns : runsOf (fc :: rest) = runsOf rest := by
          simp only [runsOf, List.filterMap_cons, hp, hm, Option.map_none']
        rw [hstep, hruns]
        exact ih res md k h
      | some m =>
        have hstep : summaryStep (res, md) fc
            = (appendAt res params.key m, insertIfAbsent md params.key params) := by
          simp only [summaryStep, hp, hm, Option.map_some']
        have hruns : runsOf (fc :: rest) = (params, m) :: runsOf rest := by
          simp only [runsOf, List.filterMap_cons, hp, hm, Option.map_some']
        rw [hstep, hruns]
        by_cases hk : k = params.key
        · subst hk
          rw [List.find?_cons_of_pos _ (by simp), Option.map_some']
          apply foldl_summaryStep_metadata_some
          rw [alookup_insertIfAbsent, if_pos rfl, h]
          rfl
        · rw [List.find?_cons_of_neg _ (by simp; exact fun hh => hk hh.symm)]
          apply ih
          rw [alookup_insertIfAbsent, if_neg hk]
          exact h

/-- **Claim C10 (confirmed).**  Invariant of the summary main loop: every
configuration key with at least one extracted metric in `results` also has a
`metadata` record, namely the parameters of the *first* successfully
processed file with that key, so the `metadata[key]` lookup in the
aggregation loop always succeeds and the emitted configuration fields for a
key come from that first file. -/
theorem C10_metadata_invariant (files : List (Str × List Str)) (k : Str)
    (ms : List Metrics) (h : alookup (summaryFold files).1 k = some ms) :
    ∃ p : RunId, alookup (summaryFold files).2 k = some p
      ∧ ((successRuns files).find? fun pm => pm.1.key = k).map (fun pm => pm.1)
          = some p := by
  rw [summaryFold] at h
  have hnone :=
    foldl_summaryStep_results_none (files.filter fun fc => keepFile fc.1) [] [] k
  have hne : ((runsOf (files.filter fun fc => keepFile fc.1)).filter
      fun pm => pm.1.key = k) ≠ [] := by
    intro hf
    have : alookup
        (((files.filter fun fc => keepFile fc.1).foldl summaryStep ([], [])).1) k
        = none := hnone.mpr ⟨rfl, hf⟩
    rw [h] at this
    cases this
  have hex : ∃ pm ∈ runsOf (files.filter fun fc => keepFile fc.1),
      pm.1.key = k := by
    cases hfl : (runsOf (files.filter fun fc => keepFile fc.1)).filter
        (fun pm => pm.1.key = k) with
    | nil => exact absurd hfl hne
    | cons pm rest =>
      have hmem : pm ∈ (runsOf (files.filter fun fc => keepFile fc.1)).filter
          (fun pm => pm.1.key = k) := by
        rw [hfl]; exact List.mem_cons_self pm rest
      obtain ⟨h1, h2⟩ := List.mem_filter.mp hmem
      exact ⟨pm, h1, of_decide_eq_true h2⟩
  obtain ⟨pm, hpm, hkey⟩ := hex
  have hsome : ((runsOf (files.filter fun fc => keepFile fc.1)).find?
      fun pm => pm.1.key = k).isSome :=
    List.find?_isSome.mpr ⟨pm, hpm, by simp [hkey]⟩
  obtain ⟨pm', hfind⟩ := Option.isSome_iff_exists.mp hsome
  refine ⟨pm'.1, ?_, ?_⟩
  · rw [summaryFold,
      foldl_summaryStep_metadata_none (files.filter fun fc => keepFile fc.1)
        [] [] k rfl, hfind]
    rfl
  · rw [successRuns_eq_runsOf, hfind]
    rfl

theorem calc_1000_100 :
    calculate_metrics [strL "h", strL "1000,100"]
      = some { ops_per_second := 100, makespan_s := 1 } := by
  have h1 : chosenLine [strL "h", strL "1000,100"] = some (strL "1000,100") := rfl
  have h2 : parseLine (strL "1000,100") = some (1000, 100) := rfl
  simp only [calculate_metrics, h1, h2]
  rw [if_neg (by norm_num : ¬(1000 : ℚ) ≤ 0)]
  norm_num [Metrics.mk.injEq]

theorem summaryFold_c10 :
    summaryFold [(strL "w__1__t__1__e__1__0(1).csv", [strL "h", strL "1000,100"])]
      = ([(strL "w__1__t__1__e__1__0", [{ ops_per_second := 100, makespan_s := 1 }])],
         [(strL "w__1__t__1__e__1__0", c2params 1)]) := by
  have hparse : parse_filename (strL "w__1__t__1__e__1__0(1).csv")
      = some (c2params 1) := by decide
  have hkeep : keepFile (strL "w__1__t__1__e__1__0(1).csv") = true := rfl
  rw [summaryFold]
  simp only [List.filter, hkeep, List.foldl_cons, List.foldl_nil]
  simp only [summaryStep, hparse, calc_1000_100, Option.map_some']
  rfl

/-- Closed witness for `C10_metadata_invariant` at a one-file input. -/
theorem C10_metadata_invariant_witness :
    ∃ p : RunId,
      alookup (summaryFold
        [(strL "w__1__t__1__e__1__0(1).csv", [strL "h", strL "1000,100"])]).2
        (strL "w__1__t__1__e__1__0") = some p
      ∧ ((successRuns
            [(strL "w__1__t__1__e__1__0(1).csv", [strL "h", strL "1000,100"])]).find?
          fun pm => pm.1.key = strL "w__1__t__1__e__1__0").map (fun pm => pm.1)
          = some p :=
  C10_metadata_invariant
    [(strL "w__1__t__1__e__1__0(1).csv", [strL "h", strL "1000,100"])]
    (strL "w__1__t__1__e__1__0") [{ ops_per_second := 100, makespan_s := 1 }]
    (by rw [summaryFold_c10]; simp [alookup])

/-! ## Duplicate-free keys of the `results` dict -/

theorem map_fst_appendAt {κ α : Type} [DecidableEq κ]
    (acc : List (κ × List α)) (k : κ) (a : α) :
    (appendAt acc k a).map Prod.fst =
      if k ∈ acc.map Prod.fst then acc.map Prod.fst
      else acc.map Prod.fst ++ [k] := by
  induction acc with
  | nil => simp [appendAt]
  | cons kb rest ih =>
    obtain ⟨k2, l⟩ := kb
    by_cases h2 : k2 = k
    · subst h2
      rw [appendAt, if_pos rfl]
      simp [List.mem_cons]
    · rw [appendAt, if_neg h2]
      rw [List.map_cons, List.map_cons, ih]
      have hne : ¬k = k2 := fun hh => h2 hh.symm
      by_cases hmem : k ∈ rest.map Prod.fst
      · rw [if_pos hmem, if_pos (List.mem_cons_of_mem k2 hmem)]
      · have hnotin : k ∉ (k2, l).1 :: rest.map Prod.fst := by
          rw [List.mem_cons]
          rintro (hor | hor)
          · exact hne hor
          · exact hmem hor
        rw [if_neg hmem, if_neg hnotin]
        rfl

theorem nodup_map_fst_appendAt {κ α : Type} [DecidableEq κ]
    {acc : List (κ × List α)} (h : (acc.map Prod.fst).Nodup) (k : κ) (a : α) :
    ((appendAt acc k a).map Prod.fst).Nodup := by
  rw [map_fst_appendAt]
  by_cases hmem : k ∈ acc.map Prod.fst
  · rw [if_pos hmem]; exact h
  · rw [if_neg hmem]
    rw [(List.perm_append_singleton k (acc.map Prod.fst)).nodup_iff]
    exact List.nodup_cons.mpr ⟨hmem, h⟩

theorem summaryFold_results_nodup (files : List (Str × List Str)) :
    ((summaryFold files).1.map Prod.fst).Nodup := by
  rw [summaryFold]
  have hgen : ∀ (L : List (Str × List Str)) (res : List (Str × List Metrics))
      (md : List (Str × RunId)), (res.map Prod.fst).Nodup →
      (((L.foldl summaryStep (res, md)).1).map Prod.fst).Nodup := by
    intro L
    induction L with
    | nil => intro res md h; exact h
    | cons fc rest ih =>
      intro res md h
      rw [List.foldl_cons]
      cases hp : parse_filename fc.1 with
      | none =>
        have hstep : summaryStep (res, md) fc = (res, md) := by
          simp only [summaryStep, hp]
        rw [hstep]; exact ih res md h
      | some params =>
        cases hm : calculate_metrics fc.2 with
        | none =>
          have hstep : summaryStep (res, md) fc = (res, md) := by
            simp only [summaryStep, hp, hm]
          rw [hstep]; exact ih res md h
        | some m =>
          have hstep : summaryStep (res, md) fc
              = (appendAt res params.key m, insertIfAbsent md params.key params) := by
            simp only [summaryStep, hp, hm, Option.map_some']
          rw [hstep]
          exact ih _ _ (nodup_map_fst_appendAt h params.key m)
  exact hgen _ [] [] (by simp)

theorem mem_alookup_of_nodup {κ β : Type} [DecidableEq κ]
    (acc : List (κ × β)) (hnd : (acc.map Prod.fst).Nodup) {k : κ} {b : β}
    (h : (k, b) ∈ acc) : alookup acc k = some b := by
  induction acc with
  | nil => cases h
  | cons kb rest ih =>
    obtain ⟨k2, b2⟩ := kb
    rw [List.map_cons, List.nodup_cons] at hnd
    rw [List.mem_cons] at h
    rcases h with h | h
    · rw [Prod.mk.injEq] at h
      obtain ⟨h1, h2⟩ := h
      rw [alookup, if_pos h1.symm, h2]
    · have hk : ¬k2 = k := by
        intro hh
        subst hh
        exact hnd.1 (List.mem_map.mpr ⟨(k2, b), h, rfl⟩)
      rw [alookup, if_neg hk]
      exact ih hnd.2 h

/-! ## Characterizing the grouped summary rows -/

/-- The output row the summary aggregation loop produces for one `results`
entry, when it belongs to output group `g`. -/
def rowSelector (files : List (Str × List Str)) (metric : Metrics → ℚ)
    (g : Str) (km : Str × List Metrics) : Option SumRow :=
  match alookup (summaryFold files).2 km.1 with
  | none => none
  | some meta =>
    if output_key meta = g then
      some (commonRow meta (meanQ (km.2.map metric)))
    else none

theorem foldl_grouped_char (files : List (Str × List Str))
    (metric : Metrics → ℚ) (g : Str) :
    ∀ (entries : List (Str × List Metrics)) (acc : List (Str × List SumRow)),
      (alookup (entries.foldl
        (fun acc km =>
          match alookup (summaryFold files).2 km.1 with
          | none => acc
          | some meta =>
            appendAt acc (output_key meta) (commonRow meta (meanQ (km.2.map metric))))
        acc) g).getD []
      = (alookup acc g).getD [] ++ entries.filterMap (rowSelector files metric g) := by
  intro entries
  induction entries with
  | nil => intro acc; simp
  | cons km rest ih =>
    intro acc
    rw [List.foldl_cons, List.filterMap_cons]
    cases hmd : alookup (summaryFold files).2 km.1 with
    | none =>
      simp only [hmd, rowSelector]
      rw [ih]
    | some meta =>
      simp only [hmd, rowSelector]
      by_cases hg : output_key meta = g
      · rw [if_pos hg, ih, alookup_appendAt, ← hg, if_pos rfl]
        simp [List.append_assoc]
      · rw [if_neg hg, ih, alookup_appendAt,
          if_neg (fun hh => hg hh.symm)]

theorem throughputRows_char (files : List (Str × List Str)) (g : Str) :
    throughputRows files g
      = ((summaryFold files).1.filterMap
          (rowSelector files (fun m => m.ops_per_second) g)).insertionSort rowLE := by
  have hchar := foldl_grouped_char files (fun m => m.ops_per_second) g
    (summaryFold files).1 []
  rw [throughputRows]
  cases halo : alookup (groupedSum files fun m => m.ops_per_second) g with
  | none =>
    rw [groupedSum] at halo
    rw [halo] at hchar
    simp only [Option.getD_none, alookup, List.nil_append] at hchar
    show ([] : List SumRow) = _
    rw [← hchar]
    rfl
  | some dl =>
    rw [groupedSum] at halo
    rw [halo] at hchar
    simp only [Option.getD_some, alookup, Option.getD_none, List.nil_append] at hchar
    show dl.insertionSort rowLE = _
    rw [hchar]

theorem makespanRows_char (files : List (Str × List Str)) (g : Str) :
    makespanRows files g
      = ((summaryFold files).1.filterMap
          (rowSelector files (fun m => m.makespan_s) g)).insertionSort rowLE := by
  have hchar := foldl_grouped_char files (fun m => m.makespan_s) g
    (summaryFold files).1 []
  rw [makespanRows]
  cases halo : alookup (groupedSum files fun m => m.makespan_s) g with
  | none =>
    rw [groupedSum] at halo
    rw [halo] at hchar
    simp only [Option.getD_none, alookup, List.nil_append] at hchar
    show ([] : List SumRow) = _
    rw [← hchar]
    rfl
  | some dl =>
    rw [groupedSum] at halo
    rw [halo] at hchar
    simp only [Option.getD_some, alookup, Option.getD_none, List.nil_append] at hchar
    show dl.insertionSort rowLE = _
    rw [hchar]

/-! ## Scalar mean aggregation (claim C6) -/

theorem calc_1000_200 :
    calculate_metrics [strL "h", strL "1000,200"]
      = some { ops_per_second := 200, makespan_s := 1 } := by
  have h1 : chosenLine [strL "h", strL "1000,200"] = some (strL "1000,200") := rfl
  have h2 : parseLine (strL "1000,200") = some (1000, 200) := rfl
  simp only [calculate_metrics, h1, h2]
  rw [if_neg (by norm_num : ¬(1000 : ℚ) ≤ 0)]
  norm_num [Metrics.mk.injEq]

/-- Two repetitions of one configuration, with 100 and 200 operations per
second respectively. -/
def c6files : List (Str × List Str) :=
  [(strL "w__1__t__1__e__1__0(1).csv", [strL "h", strL "1000,100"]),
   (strL "w__1__t__1__e__1__0(2).csv", [strL "h", strL "1000,200"])]

theorem summaryFold_c6 :
    summaryFold c6files
      = ([(strL "w__1__t__1__e__1__0",
           [{ ops_per_second := 100, makespan_s := 1 },
            { ops_per_second := 200, makespan_s := 1 }])],
         [(strL "w__1__t__1__e__1__0", c2params 1)]) := by
  have hp1 : parse_filename (strL "w__1__t__1__e__1__0(1).csv")
      = some (c2params 1) := by decide
  have hp2 : parse_filename (strL "w__1__t__1__e__1__0(2).csv")
      = some (c2params 2) := by decide
  have hk1 : keepFile (strL "w__1__t__1__e__1__0(1).csv") = true := rfl
  have hk2 : keepFile (strL "w__1__t__1__e__1__0(2).csv") = true := rfl
  rw [summaryFold, c6files]
  rw [List.filter_cons, List.filter_cons]
  simp only [hk1, hk2, if_true, List.filter_nil]
  rw [List.foldl_cons, List.foldl_cons, List.foldl_nil]
  simp only [summaryStep, hp1, hp2, calc_1000_100, calc_1000_200, Option.map_some']
  simp [appendAt, insertIfAbsent, c2params]

/-- The two-repetition input yields a single throughput row whose value is
the mean 150, with the configuration columns of the first file. -/
theorem c6rows :
    throughputRows c6files (strL "w__e") = [commonRow (c2params 1) 150] := by
  have houtkey : output_key (c2params 1) = strL "w__e" := rfl
  rw [throughputRows_char]
  simp only [summaryFold_c6, List.filterMap_cons, List.filterMap_nil, rowSelector]
  simp only [alookup, if_pos rfl, houtkey, if_pos rfl]
  have hmean : meanQ (List.map (fun m => m.ops_per_second)
      [({ ops_per_second := 100, makespan_s := 1 } : Metrics),
       { ops_per_second := 200, makespan_s := 1 }]) = 150 := by
    norm_num [meanQ]
  rw [hmean]
  simp

/-- The single makespan row of the two-repetition input: both runs took
1000 ms, so the mean makespan is 1 second. -/
theorem c6makespanRows :
    makespanRows c6files (strL "w__e") = [commonRow (c2params 1) 1] := by
  have houtkey : output_key (c2params 1) = strL "w__e" := rfl
  rw [makespanRows_char]
  simp only [summaryFold_c6, List.filterMap_cons, List.filterMap_nil, rowSelector]
  simp only [alookup, if_pos rfl, houtkey, if_pos rfl]
  have hmean : meanQ (List.map (fun m => m.makespan_s)
      [({ ops_per_second := 100, makespan_s := 1 } : Metrics),
       { ops_per_second := 200, makespan_s := 1 }]) = 1 := by
    norm_num [meanQ]
  rw [hmean]
  simp

/-- Every row the summary aggregation loop produces (for either metric)
carries the arithmetic mean of its configuration key's per-run metric values,
over exactly the runs that produced a metric, with the metadata of the key's
first successful file. -/
theorem summary_rows_mean (files : List (Str × List Str)) (metric : Metrics → ℚ)
    (g : Str) (row : SumRow)
    (hrow : row ∈ (summaryFold files).1.filterMap (rowSelector files metric g)) :
    ∃ (k : Str) (ms : List Metrics) (meta : RunId),
      alookup (summaryFold files).1 k = some ms ∧ ms ≠ [] ∧
      ms = ((successRuns files).filter fun pm => pm.1.key = k).map (fun pm => pm.2) ∧
      alookup (summaryFold files).2 k = some meta ∧
      row = commonRow meta (meanQ (ms.map metric)) := by
  rw [List.mem_filterMap] at hrow
  obtain ⟨km, hkm, hsel⟩ := hrow
  rw [rowSelector] at hsel
  cases hmd : alookup (summaryFold files).2 km.1 with
  | none =>
    simp only [hmd] at hsel
    exact Option.noConfusion hsel
  | some meta =>
    simp only [hmd] at hsel
    by_cases hg : output_key meta = g
    · rw [if_pos hg] at hsel
      have hres : alookup (summaryFold files).1 km.1 = some km.2 :=
        mem_alookup_of_nodup _ (summaryFold_results_nodup files) hkm
      have hcharL := foldl_summaryStep_results
        (files.filter fun fc => keepFile fc.1) [] [] km.1
      rw [summaryFold] at hres
      rw [hres] at hcharL
      simp only [Option.getD_some, alookup, Option.getD_none, List.nil_append] at hcharL
      have hne : km.2 ≠ [] := by
        intro hnil
        have hfilt : ((runsOf (files.filter fun fc => keepFile fc.1)).filter
            fun pm => pm.1.key = km.1) = [] := by
          cases hfl : (runsOf (files.filter fun fc => keepFile fc.1)).filter
              (fun pm => pm.1.key = km.1) with
          | nil => rfl
          | cons x xs =>
            rw [hfl] at hcharL
            rw [hnil] at hcharL
            cases hcharL
        have := (foldl_summaryStep_results_none
          (files.filter fun fc => keepFile fc.1) [] [] km.1).mpr ⟨rfl, hfilt⟩
        rw [hres] at this
        cases this
      refine ⟨km.1, km.2, meta, ?_, hne, ?_, hmd, (Option.some.inj hsel).symm⟩
      · rw [summaryFold]; exact hres
      · rw [successRuns_eq_runsOf]; exact hcharL
    · rw [if_neg hg] at hsel; cases hsel

/-- **Claim C6, confirmed.**  Every emitted summary row — in the throughput
family and in the makespan family alike — carries the arithmetic mean of its
configuration key's per-repetition metric values over exactly the runs that
produced a metric; aggregating two repetitions with ops/second 100 and 200
yields the single throughput row with mean 150 (and the single makespan row
with mean 1), with metadata from the first file. -/
theorem C6_mean_aggregation :
    (∀ (files : List (Str × List Str)) (g : Str) (row : SumRow),
      row ∈ throughputRows files g →
      ∃ (k : Str) (ms : List Metrics) (meta : RunId),
        alookup (summaryFold files).1 k = some ms ∧ ms ≠ [] ∧
        ms = ((successRuns files).filter fun pm => pm.1.key = k).map (fun pm => pm.2) ∧
        alookup (summaryFold files).2 k = some meta ∧
        row = commonRow meta (meanQ (ms.map fun m => m.ops_per_second)))
    ∧ (∀ (files : List (Str × List Str)) (g : Str) (row : SumRow),
      row ∈ makespanRows files g →
      ∃ (k : Str) (ms : List Metrics) (meta : RunId),
        alookup (summaryFold files).1 k = some ms ∧ ms ≠ [] ∧
        ms = ((successRuns files).filter fun pm => pm.1.key = k).map (fun pm => pm.2) ∧
        alookup (summaryFold files).2 k = some meta ∧
        row = commonRow meta (meanQ (ms.map fun m => m.makespan_s)))
    ∧ throughputRows c6files (strL "w__e") = [commonRow (c2params 1) 150]
    ∧ makespanRows c6files (strL "w__e") = [commonRow (c2params 1) 1] := by
  refine ⟨?_, ?_, c6rows, c6makespanRows⟩
  · intro files g row hrow
    apply summary_rows_mean
    rw [throughputRows_char, List.mem_insertionSort] at hrow
    exact hrow
  · intro files g row hrow
    apply summary_rows_mean
    rw [makespanRows_char, List.mem_insertionSort] at hrow
    exact hrow

/-- Closed witness for `C6_mean_aggregation`: both general clauses applied
to the row each family emits for the two-repetition input. -/
theorem C6_mean_aggregation_witness :
    (∃ (k : Str) (ms : List Metrics) (meta : RunId),
      alookup (summaryFold c6files).1 k = some ms ∧ ms ≠ [] ∧
      ms = ((successRuns c6files).filter fun pm => pm.1.key = k).map (fun pm => pm.2) ∧
      alookup (summaryFold c6files).2 k = some meta ∧
      commonRow (c2params 1) 150
        = commonRow meta (meanQ (ms.map fun m => m.ops_per_second)))
    ∧ (∃ (k : Str) (ms : List Metrics) (meta : RunId),
      alookup (summaryFold c6files).1 k = some ms ∧ ms ≠ [] ∧
      ms = ((successRuns c6files).filter fun pm => pm.1.key = k).map (fun pm => pm.2) ∧
      alookup (summaryFold c6files).2 k = some meta ∧
      commonRow (c2params 1) 1
        = commonRow meta (meanQ (ms.map fun m => m.makespan_s))) :=
  ⟨C6_mean_aggregation.1 c6files (strL "w__e") (commonRow (c2params 1) 150)
      (by rw [c6rows]; exact List.mem_singleton.mpr rfl),
   C6_mean_aggregation.2.1 c6files (strL "w__e") (commonRow (c2params 1) 1)
      (by rw [c6makespanRows]; exact List.mem_singleton.mpr rfl)⟩

/-! ## Listing-order dependence (claim C9) -/

/-- The fields of a parsed run record are functions of its configuration key
(the repetition index alone comes from the suffix outside the key). -/
theorem parse_filename_shape {fn : Str} {p : RunId}
    (h : parse_filename fn = some p) :
    p.workload = (splitSep p.key).getD 0 []
    ∧ some p.workers = pyInt ((splitSep p.key).getD 1 [])
    ∧ p.storage_type = (splitSep p.key).getD 2 []
    ∧ some p.partitions = pyInt ((splitSep p.key).getD 3 [])
    ∧ p.storage_engine = (splitSep p.key).getD 4 []
    ∧ some p.paths = pyInt ((splitSep p.key).getD 5 [])
    ∧ some p.interval = pyInt ((splitSep p.key).getD 6 [])
    ∧ p.chart_key = (splitSep p.key).getD 0 [] ++ sepDU
        ++ (splitSep p.key).getD 4 [] ++ sepDU ++ (splitSep p.key).getD 1 [] := by
  rw [parse_filename] at h
  split at h
  · exact Option.noConfusion h
  · split at h
    · split at h
      · have hp := Option.some.inj h
        subst hp
        refine ⟨?_, ?_, ?_, ?_, ?_, ?_, ?_, ?_⟩ <;> simp [*]
      · exact Option.noConfusion h
    · exact Option.noConfusion h

/-- All configuration fields of two parsed run records agree whenever their
keys agree (only `rep` comes from outside the key): hence `common_meta` and
the output grouping key are functions of the `results` key. -/
theorem parse_fields_of_key {fn fn' : Str} {p q : RunId}
    (h : parse_filename fn = some p) (h' : parse_filename fn' = some q)
    (hk : p.key = q.key) :
    (∀ v, commonRow p v = commonRow q v) ∧ output_key p = output_key q := by
  obtain ⟨e1, e2, e3, e4, e5, e6, e7, -⟩ := parse_filename_shape h
  obtain ⟨f1, f2, f3, f4, f5, f6, f7, -⟩ := parse_filename_shape h'
  rw [hk] at e1 e2 e3 e4 e5 e6 e7
  have hw : p.workload = q.workload := e1.trans f1.symm
  have hwk : p.workers = q.workers := Option.some.inj (e2.trans f2.symm)
  have hst : p.storage_type = q.storage_type := e3.trans f3.symm
  have hpt : p.partitions = q.partitions := Option.some.inj (e4.trans f4.symm)
  have hse : p.storage_engine = q.storage_engine := e5.trans f5.symm
  have hph : p.paths = q.paths := Option.some.inj (e6.trans f6.symm)
  have hiv : p.interval = q.interval := Option.some.inj (e7.trans f7.symm)
  constructor
  · intro v
    rw [commonRow, commonRow, hw, hwk, hst, hpt, hse, hph, hiv]
  · rw [output_key, output_key, hw, hse]

/-- Every successful run record of the summary loop is the result of some
successful filename parse. -/
theorem successRuns_from_parse (files : List (Str × List Str)) :
    ∀ pm ∈ successRuns files, ∃ fn, parse_filename fn = some pm.1 := by
  intro pm hpm
  rw [successRuns, List.mem_filterMap] at hpm
  obtain ⟨fc, -, hfc⟩ := hpm
  cases hp : parse_filename fc.1 with
  | none =>
    simp only [hp] at hfc
    exact Option.noConfusion hfc
  | some params =>
    cases hm : calculate_metrics fc.2 with
    | none =>
      simp only [hp, hm, Option.map_none'] at hfc
      exact Option.noConfusion hfc
    | some m =>
      simp only [hp, hm, Option.map_some'] at hfc
      refine ⟨fc.1, ?_⟩
      rw [hp, ← Option.some.inj hfc]

/-- The arithmetic mean is invariant under permutation of the list. -/
theorem meanQ_perm {l l' : List ℚ} (h : l.Perm l') : meanQ l = meanQ l' := by
  rw [meanQ, meanQ, h.sum_eq, h.length_eq]

theorem mem_fst_of_alookup {κ β : Type} [DecidableEq κ]
    {acc : List (κ × β)} {k : κ} {b : β} (h : alookup acc k = some b) :
    k ∈ acc.map Prod.fst := by
  induction acc with
  | nil => exact Option.noConfusion h
  | cons kb rest ih =>
    obtain ⟨k2, b2⟩ := kb
    rw [alookup] at h
    by_cases h2 : k2 = k
    · rw [List.map_cons, List.mem_cons]
      exact Or.inl h2.symm
    · rw [if_neg h2] at h
      exact List.mem_cons_of_mem _ (ih h)

/-- The summary output row produced for configuration key `k`, expressed
purely in terms of the list of successful runs: look up the first run with
that key for the metadata, average the metric over all runs with that key,
and keep the row when its output group is `g`. -/
def keyRowSpec (R : List (RunId × Metrics)) (metric : Metrics → ℚ)
    (g : Str) (k : Str) : Option SumRow :=
  match (R.find? fun pm => pm.1.key = k).map (fun pm => pm.1) with
  | none => none
  | some meta =>
    if output_key meta = g then
      some (commonRow meta
        (meanQ (((R.filter fun pm => pm.1.key = k).map fun pm => pm.2).map metric)))
    else none

/-- `keyRowSpec` only depends on the multiset of successful runs, as long as
every run record stems from a filename parse (so that its configuration
fields are functions of its key). -/
theorem keyRowSpec_perm {R R' : List (RunId × Metrics)} (hperm : R.Perm R')
    (hfrom : ∀ pm ∈ R, ∃ fn, parse_filename fn = some pm.1)
    (metric : Metrics → ℚ) (g : Str) (k : Str) :
    keyRowSpec R metric g k = keyRowSpec R' metric g k := by
  have hmean : meanQ (((R.filter fun pm => pm.1.key = k).map fun pm => pm.2).map metric)
      = meanQ (((R'.filter fun pm => pm.1.key = k).map fun pm => pm.2).map metric) :=
    meanQ_perm (((hperm.filter _).map _).map _)
  cases hf : R.find? fun pm => pm.1.key = k with
  | none =>
    have hf' : (R'.find? fun pm => pm.1.key = k) = none := by
      rw [List.find?_eq_none] at hf ⊢
      intro x hx
      exact hf x (hperm.mem_iff.mpr hx)
    rw [keyRowSpec, keyRowSpec, hf, hf']
    simp only [Option.map_none']
  | some pm =>
    have hp1 := List.find?_some hf
    have hfs : (R'.find? fun pm => pm.1.key = k).isSome := by
      rw [List.find?_isSome]
      exact ⟨pm, hperm.mem_iff.mp (List.mem_of_find?_eq_some hf), hp1⟩
    cases hf' : R'.find? fun pm => pm.1.key = k with
    | none => rw [hf'] at hfs; exact Bool.noConfusion hfs
    | some pm' =>
      have hp2 := List.find?_some hf'
      obtain ⟨fn, hfn⟩ := hfrom pm (List.mem_of_find?_eq_some hf)
      obtain ⟨fn', hfn'⟩ := hfrom pm'
        (hperm.mem_iff.mpr (List.mem_of_find?_eq_some hf'))
      have hk1 : pm.1.key = k := of_decide_eq_true hp1
      have hk2 : pm'.1.key = k := of_decide_eq_true hp2
      obtain ⟨hcr, hok⟩ := parse_fields_of_key hfn hfn' (hk1.trans hk2.symm)
      rw [keyRowSpec, keyRowSpec, hf, hf', Option.map_some', Option.map_some']
      simp only [hok, hmean, hcr]

/-- On entries actually present in the `results` dict, `rowSelector`
coincides with the run-list-level `keyRowSpec`. -/
theorem rowSelector_eq_keyRowSpec (files : List (Str × List Str))
    (metric : Metrics → ℚ) (g : Str) :
    ∀ km ∈ (summaryFold files).1,
      rowSelector files metric g km
        = keyRowSpec (successRuns files) metric g km.1 := by
  intro km hkm
  obtain ⟨k, ms⟩ := km
  have hlk : alookup (summaryFold files).1 k = some ms :=
    mem_alookup_of_nodup _ (summaryFold_results_nodup files) hkm
  have hms : ms = ((runsOf (files.filter fun fc => keepFile fc.1)).filter
      fun pm => pm.1.key = k).map (fun pm => pm.2) := by
    have h := foldl_summaryStep_results (files.filter fun fc => keepFile fc.1) [] [] k
    rw [summaryFold] at hlk
    rw [hlk] at h
    simpa using h
  have hmd : alookup (summaryFold files).2 k
      = ((runsOf (files.filter fun fc => keepFile fc.1)).find?
          fun pm => pm.1.key = k).map (fun pm => pm.1) := by
    rw [summaryFold]
    exact foldl_summaryStep_metadata_none _ [] [] k rfl
  cases hfind : (runsOf (files.filter fun fc => keepFile fc.1)).find?
      fun pm => pm.1.key = k with
  | none =>
    simp only [rowSelector, keyRowSpec, successRuns_eq_runsOf, hmd, hfind,
      Option.map_none']
  | some pm =>
    simp only [rowSelector, keyRowSpec, successRuns_eq_runsOf, hmd, hfind,
      Option.map_some', hms]

/-- A `filterMap` over an association list whose selector only looks at the
keys equals the `filterMap` of the key-level selector over the key list. -/
theorem filterMap_entries_keys {β γ : Type} :
    ∀ (res : List (Str × β)) (f : Str × β → Option γ) (F : Str → Option γ),
      (∀ km ∈ res, f km = F km.1) →
      res.filterMap f = (res.map Prod.fst).filterMap F := by
  intro res
  induction res with
  | nil => intro f F h; rfl
  | cons km rest ih =>
    intro f F h
    rw [List.map_cons, List.filterMap_cons, List.filterMap_cons,
      h km (List.mem_cons_self km rest),
      ih f F (fun x hx => h x (List.mem_cons_of_mem _ hx))]

/-- A configuration key has a `results` entry exactly when some successful
run carries it. -/
theorem mem_summary_keys (files : List (Str × List Str)) (k : Str) :
    k ∈ (summaryFold files).1.map Prod.fst
      ↔ ∃ pm ∈ successRuns files, pm.1.key = k := by
  have hchar := foldl_summaryStep_results_none
    (files.filter fun fc => keepFile fc.1) [] [] k
  constructor
  · intro h
    obtain ⟨ms, hms⟩ := alookup_of_mem_fst _ k h
    rw [summaryFold] at hms
    by_contra hno
    push_neg at hno
    have hfil : ((runsOf (files.filter fun fc => keepFile fc.1)).filter
        fun pm => pm.1.key = k) = [] := by
      rw [List.filter_eq_nil_iff]
      intro pm hpm
      simpa using hno pm (by rw [successRuns_eq_runsOf]; exact hpm)
    rw [hchar.mpr ⟨rfl, hfil⟩] at hms
    exact Option.noConfusion hms
  · rintro ⟨pm, hpm, hk⟩
    rw [successRuns_eq_runsOf] at hpm
    cases hlo : alookup (summaryFold files).1 k with
    | none =>
      rw [summaryFold] at hlo
      obtain ⟨-, hfil⟩ := hchar.mp hlo
      have hmem : pm ∈ (runsOf (files.filter fun fc => keepFile fc.1)).filter
          fun pm => pm.1.key = k := List.mem_filter.mpr ⟨hpm, by simp [hk]⟩
      rw [hfil] at hmem
      cases hmem
    | some ms => exact mem_fst_of_alookup hlo

/-- Permuting the directory listing permutes the set of `results` keys. -/
theorem summary_keys_perm {files files' : List (Str × List Str)}
    (hperm : files.Perm files') :
    ((summaryFold files).1.map Prod.fst).Perm
      ((summaryFold files').1.map Prod.fst) := by
  have hSR : (successRuns files).Perm (successRuns files') := by
    simp only [successRuns]
    exact (hperm.filter _).filterMap _
  rw [List.perm_ext_iff_of_nodup (summaryFold_results_nodup files)
    (summaryFold_results_nodup files')]
  intro k
  rw [mem_summary_keys, mem_summary_keys]
  constructor
  · rintro ⟨pm, hpm, hk⟩; exact ⟨pm, hSR.mem_iff.mp hpm, hk⟩
  · rintro ⟨pm, hpm, hk⟩; exact ⟨pm, hSR.mem_iff.mpr hpm, hk⟩

/-- The unsorted row lists of the summary aggregation are permutations of
each other under a permutation of the directory listing. -/
theorem grouped_filterMap_perm (files files' : List (Str × List Str))
    (hperm : files.Perm files') (metric : Metrics → ℚ) (g : Str) :
    ((summaryFold files).1.filterMap (rowSelector files metric g)).Perm
      ((summaryFold files').1.filterMap (rowSelector files' metric g)) := by
  have hSR : (successRuns files).Perm (successRuns files') := by
    simp only [successRuns]
    exact (hperm.filter _).filterMap _
  rw [filterMap_entries_keys _ _ (keyRowSpec (successRuns files) metric g)
      (rowSelector_eq_keyRowSpec files metric g),
    filterMap_entries_keys _ _ (keyRowSpec (successRuns files) metric g)
      (fun km hkm => (rowSelector_eq_keyRowSpec files' metric g km hkm).trans
        (keyRowSpec_perm hSR (successRuns_from_parse files) metric g km.1).symm)]
  exact (summary_keys_perm hperm).filterMap _

/-- **Claim C9, amended.**  For the summary script, the *content* of every
output CSV is a function of the input file set alone: permuting the directory
listing permutes nothing observable, because each group's rows form the same
multiset and are written in sorted order.  (Full byte-identity of the claim
fails for the time-series script, whose chart rows are concatenated in
configuration-first-appearance order — see `C9_counterexample`; and sort ties
in the summary script are broken by listing order.) -/
theorem C9_listing_order (files files' : List (Str × List Str))
    (hperm : files.Perm files') (g : Str) :
    (throughputRows files g).Perm (throughputRows files' g)
    ∧ (makespanRows files g).Perm (makespanRows files' g) := by
  constructor
  · rw [throughputRows_char, throughputRows_char]
    exact ((List.perm_insertionSort rowLE _).trans
      (grouped_filterMap_perm files files' hperm _ g)).trans
      (List.perm_insertionSort rowLE _).symm
  · rw [makespanRows_char, makespanRows_char]
    exact ((List.perm_insertionSort rowLE _).trans
      (grouped_filterMap_perm files files' hperm _ g)).trans
      (List.perm_insertionSort rowLE _).symm

/-- Closed witness for `C9_listing_order`: reversing a concrete two-file
listing leaves the throughput rows a permutation of each other. -/
theorem C9_listing_order_witness :
    c6files.Perm c6files.reverse
    ∧ (throughputRows c6files (strL "w__e")).Perm
        (throughputRows c6files.reverse (strL "w__e")) :=
  ⟨(List.reverse_perm c6files).symm,
    (C9_listing_order c6files c6files.reverse
      (List.reverse_perm c6files).symm (strL "w__e")).1⟩

/-! ## Listing-order dependence of the time-series output (claim C9) -/

/-- Interval-0 configuration, one repetition: samples 0 ms → 1000 ms. -/
def c9fileA : Str × List RawRow :=
  (strL "w__1__t__1__e__1__0(1).csv", [mkRow "0" "0", mkRow "1000" "100"])

/-- Interval-1 configuration, same chart key `w__e__1`: 0 ms → 2000 ms. -/
def c9fileB : Str × List RawRow :=
  (strL "w__1__t__1__e__1__1(1).csv", [mkRow "0" "0", mkRow "2000" "100"])

/-- The parse result of `w__1__t__1__e__1__1(1).csv`. -/
def c9paramsB : RunId :=
  { workload := strL "w", workers := 1, storage_type := strL "t", partitions := 1,
    storage_engine := strL "e", paths := 1, interval := 1, rep := 1,
    key := strL "w__1__t__1__e__1__1", chart_key := strL "w__e__1" }

theorem process_file_c9A :
    process_file [mkRow "0" "0", mkRow "1000" "100"]
      = some [{ elapsed_s := 1, throughput := 100, tracking := 0,
                repartitioning := 0 }] := by
  have h1 : rowVals (mkRow "0" "0") = some (0, 0) := rfl
  have h2 : rowVals (mkRow "1000" "100") = some (1000, 100) := rfl
  have h6 : flagActive none = false := rfl
  simp only [process_file, processRows, h1, h2, Option.some_bind, Option.map_some']
  norm_num [emitStep, mkSample, mkRow, h6, timeBucket, pyRound1, roundHalfEven]

theorem process_file_c9B :
    process_file [mkRow "0" "0", mkRow "2000" "100"]
      = some [{ elapsed_s := 2, throughput := 50, tracking := 0,
                repartitioning := 0 }] := by
  have h1 : rowVals (mkRow "0" "0") = some (0, 0) := rfl
  have h2 : rowVals (mkRow "2000" "100") = some (2000, 100) := rfl
  have h6 : flagActive none = false := rfl
  simp only [process_file, processRows, h1, h2, Option.some_bind, Option.map_some']
  norm_num [emitStep, mkSample, mkRow, h6, timeBucket, pyRound1, roundHalfEven]

theorem c9groupsAB :
    tsGroups [c9fileA, c9fileB]
      = [(strL "w__1__t__1__e__1__0",
          [([mkRow "0" "0", mkRow "1000" "100"], c2params 1)]),
         (strL "w__1__t__1__e__1__1",
          [([mkRow "0" "0", mkRow "2000" "100"], c9paramsB)])] := by decide

theorem c9groupsBA :
    tsGroups [c9fileB, c9fileA]
      = [(strL "w__1__t__1__e__1__1",
          [([mkRow "0" "0", mkRow "2000" "100"], c9paramsB)]),
         (strL "w__1__t__1__e__1__0",
          [([mkRow "0" "0", mkRow "1000" "100"], c2params 1)])] := by decide

theorem c9timePointsA :
    timePointsOf [([mkRow "0" "0", mkRow "1000" "100"], c2params 1)]
      = [(1, [{ elapsed_s := 1, throughput := 100, tracking := 0,
                repartitioning := 0 }])] := by
  simp only [timePointsOf, List.foldl_cons, List.foldl_nil, process_file_c9A]
  norm_num [appendAt, List.isEmpty_cons, List.foldl_cons, List.foldl_nil]

theorem c9timePointsB :
    timePointsOf [([mkRow "0" "0", mkRow "2000" "100"], c9paramsB)]
      = [(2, [{ elapsed_s := 2, throughput := 50, tracking := 0,
                repartitioning := 0 }])] := by
  simp only [timePointsOf, List.foldl_cons, List.foldl_nil, process_file_c9B]
  norm_num [appendAt, List.isEmpty_cons, List.foldl_cons, List.foldl_nil]

theorem c9aggRowsA :
    aggRowsOf [([mkRow "0" "0", mkRow "1000" "100"], c2params 1)] (c2params 1)
      = [mkAggRow 1 [{ elapsed_s := 1, throughput := 100, tracking := 0,
                       repartitioning := 0 }] (c2params 1)] := by
  simp only [aggRowsOf, c9timePointsA, List.map_cons, List.map_nil]
  simp [alookup]

theorem c9aggRowsB :
    aggRowsOf [([mkRow "0" "0", mkRow "2000" "100"], c9paramsB)] c9paramsB
      = [mkAggRow 2 [{ elapsed_s := 2, throughput := 50, tracking := 0,
                       repartitioning := 0 }] c9paramsB] := by
  simp only [aggRowsOf, c9timePointsB, List.map_cons, List.map_nil]
  simp [alookup]

theorem c9chartDataAB :
    tsChartData [c9fileA, c9fileB]
      = [(strL "w__e__1",
          [mkAggRow 1 [{ elapsed_s := 1, throughput := 100, tracking := 0,
                         repartitioning := 0 }] (c2params 1),
           mkAggRow 2 [{ elapsed_s := 2, throughput := 50, tracking := 0,
                         repartitioning := 0 }] c9paramsB])] := by
  rw [tsChartData, c9groupsAB, List.foldl_cons, List.foldl_cons, List.foldl_nil]
  simp only [c9timePointsA, c9timePointsB, c9aggRowsA, c9aggRowsB,
    List.isEmpty_cons, extendAt]
  norm_num [c2params, c9paramsB]

theorem c9chartDataBA :
    tsChartData [c9fileB, c9fileA]
      = [(strL "w__e__1",
          [mkAggRow 2 [{ elapsed_s := 2, throughput := 50, tracking := 0,
                         repartitioning := 0 }] c9paramsB,
           mkAggRow 1 [{ elapsed_s := 1, throughput := 100, tracking := 0,
                         repartitioning := 0 }] (c2params 1)])] := by
  rw [tsChartData, c9groupsBA, List.foldl_cons, List.foldl_cons, List.foldl_nil]
  simp only [c9timePointsA, c9timePointsB, c9aggRowsA, c9aggRowsB,
    List.isEmpty_cons, extendAt]
  norm_num [c2params, c9paramsB]

/-- The time-series script is *not* listing-order independent: two files with
different configuration keys but the same chart key `w__e__1` appear in the
chart CSV in configuration-first-appearance order, so swapping the directory
listing swaps the rows (here visible in the `interval` column: `[0, 1]`
versus `[1, 0]`). -/
theorem C9_counterexample :
    [c9fileA, c9fileB].Perm [c9fileB, c9fileA]
    ∧ ((tsRows [c9fileA, c9fileB] (strL "w__e__1")).map fun r => r.interval)
        = [0, 1]
    ∧ ((tsRows [c9fileB, c9fileA] (strL "w__e__1")).map fun r => r.interval)
        = [1, 0]
    ∧ tsRows [c9fileA, c9fileB] (strL "w__e__1")
        ≠ tsRows [c9fileB, c9fileA] (strL "w__e__1") := by
  have hAB : ((tsRows [c9fileA, c9fileB] (strL "w__e__1")).map
      fun r => r.interval) = [0, 1] := by
    rw [tsRows, c9chartDataAB]
    simp [alookup, mkAggRow, c2params, c9paramsB]
  have hBA : ((tsRows [c9fileB, c9fileA] (strL "w__e__1")).map
      fun r => r.interval) = [1, 0] := by
    rw [tsRows, c9chartDataBA]
    simp [alookup, mkAggRow, c2params, c9paramsB]
  refine ⟨List.Perm.swap c9fileB c9fileA [], hAB, hBA, fun h => ?_⟩
  rw [h, hBA] at hAB
  exact absurd hAB (by decide)
